import Mathlib

set_option autoImplicit false
set_option maxRecDepth 8000

/-!
Verification of the batch company-name normalization pipeline.

This file shallowly embeds the pipeline's core modules —
`app/llm/postprocess.py`, `app/stores/cache.py`,
`app/workers/normalize_worker.py`, `app/stores/db.py` — and proves or
refutes the behavioural claims about them.

Modelling conventions:
* Python strings are lists of characters (`Str`).  The model covers the
  ASCII fragment of Python's text handling: `unicodedata.normalize("NFKC", s)`
  (external standard-library code, not part of this repository) is the
  identity on ASCII strings and is modelled as the identity, and
  `str.lower` / `str.upper` / `\w` are modelled by their ASCII action.
  Every concrete string appearing in the claims is ASCII.
* Python floats are modelled as exact rationals.  Every numeric operation
  the code performs on them (min, comparison against 0.3 and 0.5,
  small integer ratios) is exact in this fragment.
* Python dicts (with insertion order) are association lists where
  assignment to an existing key replaces the value in place and a new key
  is appended at the end.
-/

abbrev Str := List Char

/-- Character list of a Lean string literal, used for concrete inputs. -/
def chars (s : String) : Str := s.data

/-- Python's whitespace class `\s`, restricted to ASCII. -/
def isPyWs (c : Char) : Bool :=
  c == ' ' || c == '\t' || c == '\n' || c == '\r' || c == '\x0b' || c == '\x0c'

/-- ASCII lower-casing of a single character (the action of Python's
`str.lower` on the ASCII range), written as an explicit table so that
character-class facts are provable by case analysis. -/
def lowerChar (c : Char) : Char :=
  match c with
  | 'A' => 'a' | 'B' => 'b' | 'C' => 'c' | 'D' => 'd' | 'E' => 'e'
  | 'F' => 'f' | 'G' => 'g' | 'H' => 'h' | 'I' => 'i' | 'J' => 'j'
  | 'K' => 'k' | 'L' => 'l' | 'M' => 'm' | 'N' => 'n' | 'O' => 'o'
  | 'P' => 'p' | 'Q' => 'q' | 'R' => 'r' | 'S' => 's' | 'T' => 't'
  | 'U' => 'u' | 'V' => 'v' | 'W' => 'w' | 'X' => 'x' | 'Y' => 'y'
  | 'Z' => 'z'
  | c => c

/-- ASCII upper-casing of a single character (Python `str.upper` on ASCII). -/
def upperChar (c : Char) : Char :=
  match c with
  | 'a' => 'A' | 'b' => 'B' | 'c' => 'C' | 'd' => 'D' | 'e' => 'E'
  | 'f' => 'F' | 'g' => 'G' | 'h' => 'H' | 'i' => 'I' | 'j' => 'J'
  | 'k' => 'K' | 'l' => 'L' | 'm' => 'M' | 'n' => 'N' | 'o' => 'O'
  | 'p' => 'P' | 'q' => 'Q' | 'r' => 'R' | 's' => 'S' | 't' => 'T'
  | 'u' => 'U' | 'v' => 'V' | 'w' => 'W' | 'x' => 'X' | 'y' => 'Y'
  | 'z' => 'Z'
  | c => c

/-- Removal of a trailing run of characters satisfying `p`
(the right half of Python's `str.strip`). -/
def dropTrailWhile (p : Char → Bool) : Str → Str
  | [] => []
  | c :: rest =>
    let r := dropTrailWhile p rest
    if r = [] && p c then [] else c :: r

/-- Python `str.strip(...)` with an arbitrary character predicate:
drop matching characters from both ends. -/
def pyStrip (p : Char → Bool) (s : Str) : Str := dropTrailWhile p (s.dropWhile p)

/-- Replacement of every whitespace run (length at least 1) by a single
space: the effect of `re.sub(r"\s+", " ", s)`.  The Boolean flag records
whether the scan is currently inside a whitespace run. -/
def collapseRun : Str → Bool → Str
  | [], _ => []
  | c :: rest, inRun =>
    if isPyWs c then
      if inRun then collapseRun rest true else ' ' :: collapseRun rest true
    else c :: collapseRun rest false

/-- Effect of `re.sub(r"\s+", " ", s)`. -/
def collapseWs (s : Str) : Str := collapseRun s false

/-- Characters stripped from the ends by `min_clean`
(Python `s.strip('"\'()[]{}.,;:')`). -/
def minCleanStripChars : List Char :=
  ['"', '\'', '(', ')', '[', ']', '\x7b', '\x7d', '.', ',', ';', ':']

/-- Translation of `min_clean` (app/llm/postprocess.py lines 38-44):
NFKC normalization (identity on the modelled ASCII fragment), trim,
collapse whitespace runs to single spaces, strip outer quote/bracket/
punctuation characters, lower-case.  This is the key normalizer used both
for cache keys and for `key_form`. -/
def min_clean (s : Str) : Str :=
  let n1 := pyStrip isPyWs s
  let n2 := collapseWs n1
  let n3 := pyStrip (fun c => decide (c ∈ minCleanStripChars)) n2
  n3.map lowerChar

/-- Word characters of the regex class `\w`, ASCII fragment. -/
def isWordChar (c : Char) : Bool := c.isAlphanum || c == '_'

/-- Characters kept by `tokenize`: the class `[\w&]`. -/
def isTokChar (c : Char) : Bool := isWordChar c || c == '&'

/-- Splitting a string into maximal runs of characters satisfying `p`,
dropping separators and empty pieces (the effect of
`[tok for tok in re.split(<complement of p>+, s) if tok]`).
The accumulator holds the current run reversed. -/
def splitRunsGo (p : Char → Bool) : Str → Str → List Str
  | [], acc => if acc = [] then [] else [acc.reverse]
  | c :: rest, acc =>
    if p c then splitRunsGo p rest (c :: acc)
    else if acc = [] then splitRunsGo p rest []
    else acc.reverse :: splitRunsGo p rest []

/-- Translation of `tokenize` (postprocess.py lines 74-75):
lower-case, then split on `[^\w&]+`, dropping empty tokens. -/
def tokenize (s : Str) : List Str := splitRunsGo isTokChar (s.map lowerChar) []

/-- Python's binary `min` on numbers: the second argument is returned only
when it is strictly smaller (ties keep the first argument). -/
def pyMin (a b : ℚ) : ℚ := if b < a then b else a

/-- Translation of `token_overlap` (postprocess.py lines 78-83):
Jaccard overlap of the two token sets, 0.0 when either set is empty.
Python sets are modelled by deduplicated lists; only their sizes matter.
The integer-ratio division is written `Rat.divInt` (the exact value of the
Python division) so that the definition evaluates by kernel reduction. -/
def token_overlap (a b : Str) : ℚ :=
  let ta := (tokenize a).dedup
  let tb := (tokenize b).dedup
  if ta = [] || tb = [] then 0
  else
    let inter := (ta.filter (fun t => decide (t ∈ tb))).length
    let union := ta.length + (tb.filter (fun t => decide (t ∉ ta))).length
    Rat.divInt inter union

/-- Characters removed outright by `APOSTROPHE_RE` (the mojibake class
`[â€™']` of postprocess.py line 28: the three bytes of a UTF-8 right quote
read as Latin-1, plus the ASCII apostrophe). -/
def apostropheChars : List Char := ['â', '€', '™', '\'']

/-- Characters kept by `NON_ALNUM_RE` (`[^\w\s&-]` is replaced by a space). -/
def keepAlnum (c : Char) : Bool := isWordChar c || isPyWs c || c == '&' || c == '-'

/-- Scanner state for `collapseTwo`: no pending whitespace, exactly one
pending whitespace character, or inside an already-emitted long run. -/
inductive WsSt | clear | one (w : Char) | longRun

/-- Effect of `re.sub(r"\s{2,}", " ", s)`: whitespace runs of length at
least 2 become a single space; an isolated whitespace character is kept
as-is. -/
def collapseTwoGo : Str → WsSt → Str
  | [], .clear => []
  | [], .one w => [w]
  | [], .longRun => []
  | c :: rest, st =>
    if isPyWs c then
      match st with
      | .clear => collapseTwoGo rest (.one c)
      | .one _ => ' ' :: collapseTwoGo rest .longRun
      | .longRun => collapseTwoGo rest .longRun
    else
      match st with
      | .clear => c :: collapseTwoGo rest .clear
      | .one w => w :: c :: collapseTwoGo rest .clear
      | .longRun => c :: collapseTwoGo rest .clear

/-- Effect of `MULTISPACE_RE.sub(" ", s)`. -/
def collapseTwo (s : Str) : Str := collapseTwoGo s .clear

/-- Tails that `SUFFIX_RE` (postprocess.py lines 11-25) can actually remove.
`SUFFIX_RE` runs after `NON_ALNUM_RE` has replaced every '.' by a space, so
the dotted alternatives (`l\.l\.c\.?`, `s\.a\.?`, `b\.v\.?`, ...) can never
match; what remains are these literal tokens, with `p\s*c`, `p\s*a` and
`m\s*d` also matching their two-token spaced forms. -/
def legalSuffixTails : List Str :=
  [chars "incorporated", chars "inc", chars "llc", chars "company", chars "co",
   chars "corp", chars "corporation", chars "limited", chars "ltd", chars "plc",
   chars "gmbh", chars "bv", chars "ag", chars "dds", chars "dmd",
   chars "p c", chars "pc", chars "p a", chars "pa", chars "llp",
   chars "m d", chars "md"]

/-- Whether `s` ends with `t` (case-sensitively). -/
def endsWithList (s t : Str) : Bool := decide (s.reverse.take t.length = t.reverse)

/-- Attempted removal of the tail `\s+ t $` (case-insensitive) from `s`:
returns the remainder if `s` ends with `t` preceded by at least one
whitespace character, `none` otherwise. -/
def tryStripTail (s : Str) (t : Str) : Option Str :=
  if endsWithList (s.map lowerChar) t then
    let core := s.take (s.length - t.length)
    let core2 := dropTrailWhile isPyWs core
    if core2.length < core.length then some core2 else none
  else none

/-- Effect of `SUFFIX_RE.sub("", s)`: the regex finds the leftmost match of
`\s+(?:alternatives)\s*$`, which removes the longest matching tail, so among
the candidate removals the shortest remaining core is kept. -/
def stripLegalSuffix (s : Str) : Str :=
  match legalSuffixTails.filterMap (tryStripTail s) with
  | [] => s
  | c :: cs => cs.foldl (fun best x => if x.length < best.length then x else best) c

/-- Test for `re.search(r"&\s+co\.?$", s, IGNORECASE)`: the string ends with
"co" preceded by whitespace preceded by '&' (dots are gone by this stage). -/
def endsAmpCo (s : Str) : Bool :=
  match (s.map lowerChar).reverse with
  | 'o' :: 'c' :: rest =>
    let rest2 := rest.dropWhile isPyWs
    decide (rest2.length < rest.length) && decide (rest2.head? = some '&')
  | _ => false

/-- Effect of `re.sub(r"\s+co\.?$", "", s, IGNORECASE)`. -/
def stripTrailingCo (s : Str) : Str := (tryStripTail s (chars "co")).getD s

/-- Python `str.split()`: maximal non-whitespace runs. -/
def pySplitGo : Str → Str → List Str
  | [], acc => if acc = [] then [] else [acc.reverse]
  | c :: rest, acc =>
    if isPyWs c then
      if acc = [] then pySplitGo rest [] else acc.reverse :: pySplitGo rest []
    else pySplitGo rest (c :: acc)

/-- Python `str.split()`. -/
def pySplit (s : Str) : List Str := pySplitGo s []

/-- Python `str.split(sep)` for a single separator character: keeps empty
pieces, and the empty string yields one empty piece. -/
def splitOnChar (sep : Char) : Str → List Str
  | [] => [[]]
  | c :: rest =>
    let r := splitOnChar sep rest
    if c = sep then [] :: r
    else
      match r with
      | [] => [[c]]
      | h :: t => (c :: h) :: t

/-- Python `str.capitalize()` (ASCII fragment): first character
upper-cased, the rest lower-cased. -/
def capitalizeWord : Str → Str
  | [] => []
  | c :: rest => upperChar c :: rest.map lowerChar

/-- Python `str.isupper()` (ASCII fragment): at least one letter and no
lower-case letter. -/
def isUpperWord (w : Str) : Bool :=
  w.any (fun c => c.isAlpha) && w.all (fun c => !c.isLower)

/-- Interleaving a separator character between words (`sep.join(...)`). -/
def joinSep (sep : Char) : List Str → Str
  | [] => []
  | [w] => w
  | w :: ws => w ++ sep :: joinSep sep ws

/-- Stop words of postprocess.py line 29. -/
def STOPWORDS : List Str :=
  [chars "of", chars "and", chars "the", chars "for", chars "in", chars "on",
   chars "at", chars "with", chars "to", chars "from", chars "by"]

/-- Two-letter US state codes of postprocess.py lines 30-34. -/
def STATE_CODES : List Str :=
  [chars "al", chars "ak", chars "az", chars "ar", chars "ca", chars "co",
   chars "ct", chars "de", chars "fl", chars "ga", chars "hi", chars "id",
   chars "il", chars "in", chars "ia", chars "ks", chars "ky", chars "la",
   chars "me", chars "md", chars "ma", chars "mi", chars "mn", chars "ms",
   chars "mo", chars "mt", chars "ne", chars "nv", chars "nh", chars "nj",
   chars "nm", chars "ny", chars "nc", chars "nd", chars "oh", chars "ok",
   chars "or", chars "pa", chars "ri", chars "sc", chars "sd", chars "tn",
   chars "tx", chars "ut", chars "vt", chars "va", chars "wa", chars "wv",
   chars "wi", chars "wy"]

/-- Acronym whitelist of postprocess.py line 35. -/
def ACRONYM_WHITELIST : List Str :=
  [chars "usa", chars "bsn", chars "ibm", chars "uams", chars "uapb",
   chars "mri", chars "ct", chars "ltb"]

/-- Translation of `_smart_case` (postprocess.py lines 47-55). -/
def smart_case (word : Str) (first : Bool) : Str :=
  let low := word.map lowerChar
  if decide (low ∈ STOPWORDS) then
    if first then capitalizeWord word else low
  else if word.length = 2 && decide (low ∈ STATE_CODES) then
    word.map upperChar
  else if isUpperWord word && decide (low ∈ ACRONYM_WHITELIST) then
    word
  else
    joinSep '-' ((splitOnChar '-' word).map capitalizeWord)

/-- Translation of `clean_company_name` (postprocess.py lines 58-71):
drop apostrophe mojibake, replace non-`[\w\s&-]` characters by spaces,
collapse multi-whitespace, strip, drop one trailing legal suffix, strip,
drop a trailing " co" unless preceded by '&', smart-case each token, and
restore a trailing "Co" after a final '&'. -/
def clean_company_name (name : Str) : Str :=
  if name = [] then []
  else
    let n1 := name.filter (fun c => !decide (c ∈ apostropheChars))
    let n2 := n1.map (fun c => if keepAlnum c then c else ' ')
    let n3 := pyStrip isPyWs (collapseTwo n2)
    let n4 := pyStrip isPyWs (stripLegalSuffix n3)
    let n5 := if endsAmpCo n4 then n4 else stripTrailingCo n4
    let tokens := pySplit n5
    let styled :=
      match tokens with
      | [] => []
      | t :: ts => smart_case t true :: ts.map (fun w => smart_case w false)
    let styled2 :=
      if decide (styled.getLast? = some ['&']) then styled ++ [chars "Co"]
      else styled
    joinSep ' ' styled2

/-- Classifier payload as consumed by `apply_guardrails`: a JSON object
modelled with optional typed fields (`payload.get(k, default)` is
`(p.k).getD default`).  The `canonical_with_article` / `article_policy`
members of the wire payload are never read by postprocess.py and are
omitted. -/
structure Payload where
  canonical : Option Str := none
  is_new : Option Bool := none
  confidence : Option ℚ := none
  reason : Option Str := none
  deriving DecidableEq

/-- Translation of the `GuardrailResult` dataclass
(postprocess.py lines 86-95).  Note that it has no
`canonical_with_article` or `article_policy` field. -/
structure GuardrailResult where
  canonical : Str
  is_new : Bool
  confidence : ℚ
  reason : Option Str
  key_form : Str
  display_form : Str
  raw_reason : Option Str
  flags : List String
  deriving DecidableEq

/-- Field names declared on the `GuardrailResult` dataclass
(postprocess.py lines 86-95). -/
def guardrailResultFields : List String :=
  ["canonical", "is_new", "confidence", "reason", "key_form", "display_form",
   "raw_reason", "flags"]

/-- Attributes that `NormalizationService._to_response`
(normalize_worker.py lines 234-251) reads off its `guard` argument. -/
def toResponseGuardReads : List String :=
  ["canonical", "canonical_with_article", "article_policy", "is_new",
   "confidence", "reason", "key_form", "display_form", "flags"]

/-- Attributes read by `_to_response` that `GuardrailResult` does not
declare; each such read raises `AttributeError` in Python. -/
def toResponseMissingAttrs : List String :=
  toResponseGuardReads.filter (fun a => !guardrailResultFields.contains a)

/-- Translation of `apply_guardrails` (postprocess.py lines 98-132). -/
def apply_guardrails (raw_name : Str) (payload : Payload) : GuardrailResult :=
  let canonical0 := pyStrip isPyWs (payload.canonical.getD [])
  let is_new := payload.is_new.getD false
  let confidence0 : ℚ := payload.confidence.getD 0
  let reason := payload.reason
  let empty := canonical0 = []
  let canonical := if empty then clean_company_name raw_name else canonical0
  let confidence1 := if empty then 0 else confidence0
  let flags1 : List String := if empty then ["empty_canonical"] else []
  let overlap := token_overlap raw_name canonical
  let lowOverlap := overlap < Rat.divInt 3 10
  let confidence2 := if lowOverlap then pyMin confidence1 (Rat.divInt 1 2) else confidence1
  let flags2 := flags1 ++ (if lowOverlap then ["low_token_overlap"] else [])
  let cleaned_display := clean_company_name canonical
  let key_form := min_clean canonical
  let fallback := cleaned_display = []
  let display := if fallback then clean_company_name raw_name else cleaned_display
  let flags3 := flags2 ++ (if fallback then ["fallback_display"] else [])
  { canonical := canonical
    is_new := is_new
    confidence := confidence2
    reason := match reason with
      | some s => if pyStrip isPyWs s = [] then none else some s
      | none => none
    key_form := key_form
    display_form := display
    raw_reason := reason
    flags := flags3 }

/-- Canonical name after rule 1 of `apply_guardrails` (the empty-canonical
fallback): the name whose token overlap with `raw_name` drives rule 2. -/
def effective_canonical (raw_name : Str) (payload : Payload) : Str :=
  let canonical0 := pyStrip isPyWs (payload.canonical.getD [])
  if canonical0 = [] then clean_company_name raw_name else canonical0

/-- Confidence after rule 1 of `apply_guardrails` and before the
low-overlap cap of rule 2. -/
def pre_cap_confidence (payload : Payload) : ℚ :=
  if pyStrip isPyWs (payload.canonical.getD []) = [] then 0
  else payload.confidence.getD 0

/-! ### Character-class facts used by the key-normalizer analysis -/

/-- Upper-case ASCII letters. -/
def upperAscii : List Char :=
  ['A','B','C','D','E','F','G','H','I','J','K','L','M',
   'N','O','P','Q','R','S','T','U','V','W','X','Y','Z']

theorem lowerChar_not_mem_upper (c : Char) : lowerChar c ∉ upperAscii := by
  unfold lowerChar
  split <;> first | decide | simp_all [upperAscii]

theorem lowerChar_eq_self_of_not_upper (c : Char) (h : c ∉ upperAscii) :
    lowerChar c = c := by
  unfold lowerChar
  split <;> first | rfl | simp_all [upperAscii]

theorem isPyWs_lowerChar (c : Char) : isPyWs (lowerChar c) = isPyWs c := by
  unfold lowerChar
  split <;> rfl

theorem mem_strip_lowerChar (c : Char) :
    (lowerChar c ∈ minCleanStripChars) ↔ (c ∈ minCleanStripChars) := by
  unfold lowerChar
  split <;> first | exact Iff.rfl | decide

theorem lowerChar_idem (c : Char) : lowerChar (lowerChar c) = lowerChar c :=
  lowerChar_eq_self_of_not_upper _ (lowerChar_not_mem_upper c)

theorem lowerChar_eq_self_of_ws (c : Char) (h : isPyWs c = true) :
    lowerChar c = c := by
  simp only [isPyWs, Bool.or_eq_true, beq_iff_eq] at h
  rcases h with ((((h | h) | h) | h) | h) | h <;> subst h <;> rfl

/-! ### Shape invariants of the `min_clean` pipeline stages -/

/-- No two adjacent whitespace characters. -/
def noAdjWs : Str → Bool
  | [] => true
  | c :: rest => !(isPyWs c && rest.head?.any isPyWs) && noAdjWs rest

/-- Every whitespace character is a plain space. -/
def wsAllSp (s : Str) : Bool := s.all (fun c => !isPyWs c || c == ' ')

/-- Neither end of the string is whitespace. -/
def noOuterWs (s : Str) : Bool := !(s.head?.any isPyWs || s.getLast?.any isPyWs)

theorem head_collapseRun_true (s : Str) :
    (collapseRun s true).head?.any isPyWs = false := by
  induction s with
  | nil => rfl
  | cons c rest ih =>
    by_cases h : isPyWs c
    · simpa [collapseRun, h] using ih
    · simp [collapseRun, h]

theorem wsAllSp_collapseRun (s : Str) : ∀ b, wsAllSp (collapseRun s b) = true := by
  induction s with
  | nil => intro b; rfl
  | cons c rest ih =>
    intro b
    by_cases h : isPyWs c
    · cases b
      · have := ih true
        simp only [collapseRun, h, if_true]
        simpa [wsAllSp] using this
      · have := ih true
        simpa [collapseRun, h] using this
    · have := ih false
      simp only [collapseRun, h, if_false]
      simpa [wsAllSp, h] using this

theorem noAdjWs_collapseRun (s : Str) : ∀ b, noAdjWs (collapseRun s b) = true := by
  induction s with
  | nil => intro b; rfl
  | cons c rest ih =>
    intro b
    by_cases h : isPyWs c
    · cases b
      · simp only [collapseRun, h, if_true, if_false, noAdjWs]
        rw [head_collapseRun_true]
        simpa using ih true
      · simpa [collapseRun, h] using ih true
    · simp only [collapseRun, h, if_false, noAdjWs]
      simp only [h, Bool.false_and, Bool.not_false, Bool.true_and]
      exact ih false

theorem noAdjWs_tail (c : Char) (rest : Str) (h : noAdjWs (c :: rest) = true) :
    noAdjWs rest = true := by
  simp only [noAdjWs, Bool.and_eq_true] at h
  exact h.2

theorem noAdjWs_dropWhile (p : Char → Bool) (s : Str) (h : noAdjWs s = true) :
    noAdjWs (s.dropWhile p) = true := by
  induction s with
  | nil => exact h
  | cons c rest ih =>
    by_cases hp : p c
    · simpa [List.dropWhile_cons, hp] using ih (noAdjWs_tail _ _ h)
    · simpa [List.dropWhile_cons, hp] using h

theorem wsAllSp_sublist {s t : Str} (hsub : List.Sublist s t) (h : wsAllSp t = true) :
    wsAllSp s = true := by
  simp only [wsAllSp, List.all_eq_true] at h ⊢
  intro c hc
  exact h c (hsub.subset hc)

theorem dropTrailWhile_append (p : Char → Bool) (s : Str) :
    ∃ t, s = dropTrailWhile p s ++ t := by
  induction s with
  | nil => exact ⟨[], rfl⟩
  | cons c rest ih =>
    simp only [dropTrailWhile]
    split
    · exact ⟨c :: rest, rfl⟩
    · obtain ⟨t, ht⟩ := ih
      exact ⟨t, by rw [List.cons_append, ← ht]⟩

theorem dropTrailWhile_sublist (p : Char → Bool) (s : Str) :
    List.Sublist (dropTrailWhile p s) s := by
  obtain ⟨t, ht⟩ := dropTrailWhile_append p s
  conv_rhs => rw [ht]
  exact List.sublist_append_left _ _

theorem noAdjWs_append_left (l1 l2 : Str) (h : noAdjWs (l1 ++ l2) = true) :
    noAdjWs l1 = true := by
  induction l1 with
  | nil => rfl
  | cons c rest ih =>
    simp only [List.cons_append, noAdjWs, Bool.and_eq_true] at h
    simp only [noAdjWs, Bool.and_eq_true]
    refine ⟨?_, ih h.2⟩
    cases rest with
    | nil => simp
    | cons d rest2 => simpa using h.1

theorem noAdjWs_dropTrailWhile (p : Char → Bool) (s : Str) (h : noAdjWs s = true) :
    noAdjWs (dropTrailWhile p s) = true := by
  obtain ⟨t, ht⟩ := dropTrailWhile_append p s
  exact noAdjWs_append_left _ _ (ht ▸ h)

theorem dropWhile_eq_self_of_head (p : Char → Bool) (s : Str)
    (h : s.head?.any p = false) : s.dropWhile p = s := by
  cases s with
  | nil => rfl
  | cons c rest => simp_all [List.dropWhile_cons]

theorem dropTrailWhile_eq_self_of_getLast (p : Char → Bool) (s : Str)
    (h : s.getLast?.any p = false) : dropTrailWhile p s = s := by
  induction s with
  | nil => rfl
  | cons c rest ih =>
    cases rest with
    | nil => simp_all [dropTrailWhile]
    | cons d rest2 =>
      rw [List.getLast?_cons_cons] at h
      have hr := ih h
      show (if (decide (dropTrailWhile p (d :: rest2) = []) && p c) = true then []
            else c :: dropTrailWhile p (d :: rest2)) = c :: d :: rest2
      simp only [hr]
      simp

theorem collapseRun_true_eq_false_of_head (s : Str)
    (h : s.head?.any isPyWs = false) : collapseRun s true = collapseRun s false := by
  cases s with
  | nil => rfl
  | cons c rest => simp_all [collapseRun]

theorem collapseRun_eq_self (s : Str) (hAdj : noAdjWs s = true)
    (hSp : wsAllSp s = true) : collapseRun s false = s := by
  induction s with
  | nil => rfl
  | cons c rest ih =>
    have hAdj2 : noAdjWs rest = true := noAdjWs_tail _ _ hAdj
    have hSp2 : wsAllSp rest = true := by
      simp only [wsAllSp, List.all_cons, Bool.and_eq_true] at hSp
      exact hSp.2
    have hrec := ih hAdj2 hSp2
    by_cases h : isPyWs c
    · have hcsp : c = ' ' := by
        simp only [wsAllSp, List.all_cons, Bool.and_eq_true] at hSp
        have h1 := hSp.1
        simp only [h, Bool.not_true, Bool.false_or, beq_iff_eq] at h1
        exact h1
      have hhead : rest.head?.any isPyWs = false := by
        simp only [noAdjWs, Bool.and_eq_true] at hAdj
        have h1 := hAdj.1
        simp only [h, Bool.true_and, Bool.not_eq_true'] at h1
        exact h1
      simp only [collapseRun, h, if_true]
      rw [collapseRun_true_eq_false_of_head rest hhead, hrec, hcsp]
      simp
    · simp only [collapseRun, h, if_false]
      simp [hrec]

theorem head_dropWhile_not (p : Char → Bool) (s : Str) :
    (s.dropWhile p).head?.any p = false := by
  induction s with
  | nil => rfl
  | cons c rest ih =>
    by_cases hp : p c <;> simp_all [List.dropWhile_cons]

theorem getLast_dropTrailWhile_not (p : Char → Bool) (s : Str) :
    (dropTrailWhile p s).getLast?.any p = false := by
  induction s with
  | nil => rfl
  | cons c rest ih =>
    simp only [dropTrailWhile]
    split
    · rfl
    · rename_i hcond
      by_cases hr : dropTrailWhile p rest = []
      · have hpc : p c = false := by
          simp [hr] at hcond
          exact hcond
        simp [hr, hpc]
      · obtain ⟨d, t, hd⟩ : ∃ d t, dropTrailWhile p rest = d :: t := by
          cases hdt : dropTrailWhile p rest with
          | nil => exact absurd hdt hr
          | cons d t => exact ⟨d, t, rfl⟩
        rw [hd, List.getLast?_cons_cons]
        rw [hd] at ih
        exact ih

theorem head_dropTrailWhile (p : Char → Bool) (s : Str) :
    dropTrailWhile p s = [] ∨ (dropTrailWhile p s).head? = s.head? := by
  cases s with
  | nil => exact Or.inl rfl
  | cons c rest =>
    simp only [dropTrailWhile]
    split
    · exact Or.inl rfl
    · exact Or.inr rfl

theorem map_lowerChar_idem (s : Str) :
    (s.map lowerChar).map lowerChar = s.map lowerChar := by
  induction s with
  | nil => rfl
  | cons c rest ih => simp [ih, lowerChar_idem]

theorem noAdjWs_map_lowerChar (s : Str) (h : noAdjWs s = true) :
    noAdjWs (s.map lowerChar) = true := by
  induction s with
  | nil => rfl
  | cons c rest ih =>
    simp only [noAdjWs, Bool.and_eq_true] at h
    simp only [List.map_cons, noAdjWs, Bool.and_eq_true]
    refine ⟨?_, ih h.2⟩
    cases rest with
    | nil => simp
    | cons d rest2 =>
      have := h.1
      simpa [isPyWs_lowerChar] using this

theorem wsAllSp_map_lowerChar (s : Str) (h : wsAllSp s = true) :
    wsAllSp (s.map lowerChar) = true := by
  simp only [wsAllSp, List.all_eq_true, List.mem_map] at h ⊢
  rintro c ⟨d, hd, rfl⟩
  have hd2 := h d hd
  by_cases hws : isPyWs d
  · rw [lowerChar_eq_self_of_ws d hws]
    exact hd2
  · simp [isPyWs_lowerChar, hws]

theorem head_any_punct_map_lower (v : Str)
    (h : v.head?.any (fun c => decide (c ∈ minCleanStripChars)) = false) :
    (v.map lowerChar).head?.any (fun c => decide (c ∈ minCleanStripChars)) = false := by
  cases v with
  | nil => rfl
  | cons c rest =>
    simp only [List.map_cons, List.head?_cons, Option.any_some] at h ⊢
    rw [decide_eq_false_iff_not] at h ⊢
    intro hc
    exact h ((mem_strip_lowerChar c).mp hc)

theorem getLast_any_punct_map_lower (v : Str)
    (h : v.getLast?.any (fun c => decide (c ∈ minCleanStripChars)) = false) :
    (v.map lowerChar).getLast?.any (fun c => decide (c ∈ minCleanStripChars)) = false := by
  rw [List.getLast?_map]
  cases hv : v.getLast? with
  | none => rfl
  | some c =>
    rw [hv] at h
    simp only [Option.map_some', Option.any_some] at h ⊢
    rw [decide_eq_false_iff_not] at h ⊢
    intro hc
    exact h ((mem_strip_lowerChar c).mp hc)

/-- Strings satisfying all the structural invariants produced by one pass of
`min_clean` are fixed points of `min_clean`. -/
theorem min_clean_fixed_point (t : Str)
    (hAdj : noAdjWs t = true) (hSp : wsAllSp t = true)
    (hph : t.head?.any (fun c => decide (c ∈ minCleanStripChars)) = false)
    (hpl : t.getLast?.any (fun c => decide (c ∈ minCleanStripChars)) = false)
    (hmap : t.map lowerChar = t)
    (hwh : t.head?.any isPyWs = false)
    (hwl : t.getLast?.any isPyWs = false) :
    min_clean t = t := by
  simp only [min_clean, pyStrip, collapseWs]
  rw [dropWhile_eq_self_of_head _ _ hwh]
  rw [dropTrailWhile_eq_self_of_getLast _ _ hwl]
  rw [collapseRun_eq_self _ hAdj hSp]
  rw [dropWhile_eq_self_of_head _ _ hph]
  rw [dropTrailWhile_eq_self_of_getLast _ _ hpl]
  exact hmap

/-- C5 (counterexample): `min_clean` is not idempotent.  Stripping the outer
parentheses of "( x )" exposes outer spaces which only a second pass trims,
so `min_clean "( x )" = " x "` while `min_clean " x " = "x"`. -/
theorem min_clean_not_idempotent :
    min_clean (min_clean (chars "( x )")) ≠ min_clean (chars "( x )") := by decide

/-- C5 (amended): `min_clean` is idempotent on every input whose cleaned form
has no leading or trailing whitespace — that is, whenever stripping the outer
quote/bracket/punctuation characters did not expose outer whitespace, which
is the only way a second application can differ from the first. -/
theorem min_clean_idem_of_no_outer_ws (s : Str)
    (h : noOuterWs (min_clean s) = true) :
    min_clean (min_clean s) = min_clean s := by
  have hexp : min_clean s =
      (pyStrip (fun c => decide (c ∈ minCleanStripChars))
        (collapseWs (pyStrip isPyWs s))).map lowerChar := rfl
  have hu1 : noAdjWs (collapseWs (pyStrip isPyWs s)) = true :=
    noAdjWs_collapseRun _ false
  have hu2 : wsAllSp (collapseWs (pyStrip isPyWs s)) = true :=
    wsAllSp_collapseRun _ false
  have hvsub : List.Sublist
      (pyStrip (fun c => decide (c ∈ minCleanStripChars))
        (collapseWs (pyStrip isPyWs s)))
      (collapseWs (pyStrip isPyWs s)) := by
    unfold pyStrip
    exact (dropTrailWhile_sublist _ _).trans (List.dropWhile_sublist _)
  have hv1 : noAdjWs (pyStrip (fun c => decide (c ∈ minCleanStripChars))
      (collapseWs (pyStrip isPyWs s))) = true := by
    unfold pyStrip
    exact noAdjWs_dropTrailWhile _ _ (noAdjWs_dropWhile _ _ hu1)
  have hv2 : wsAllSp (pyStrip (fun c => decide (c ∈ minCleanStripChars))
      (collapseWs (pyStrip isPyWs s))) = true :=
    wsAllSp_sublist hvsub hu2
  have hvh : (pyStrip (fun c => decide (c ∈ minCleanStripChars))
      (collapseWs (pyStrip isPyWs s))).head?.any
        (fun c => decide (c ∈ minCleanStripChars)) = false := by
    show (dropTrailWhile (fun c => decide (c ∈ minCleanStripChars))
        ((collapseWs (pyStrip isPyWs s)).dropWhile
          (fun c => decide (c ∈ minCleanStripChars)))).head?.any
        (fun c => decide (c ∈ minCleanStripChars)) = false
    rcases head_dropTrailWhile (fun c => decide (c ∈ minCleanStripChars))
        ((collapseWs (pyStrip isPyWs s)).dropWhile
          (fun c => decide (c ∈ minCleanStripChars))) with hnil | heq
    · rw [hnil]; rfl
    · rw [heq]; exact head_dropWhile_not _ _
  have hvl : (pyStrip (fun c => decide (c ∈ minCleanStripChars))
      (collapseWs (pyStrip isPyWs s))).getLast?.any
        (fun c => decide (c ∈ minCleanStripChars)) = false := by
    show (dropTrailWhile (fun c => decide (c ∈ minCleanStripChars))
        ((collapseWs (pyStrip isPyWs s)).dropWhile
          (fun c => decide (c ∈ minCleanStripChars)))).getLast?.any
        (fun c => decide (c ∈ minCleanStripChars)) = false
    exact getLast_dropTrailWhile_not _ _
  have hws : (min_clean s).head?.any isPyWs = false ∧
      (min_clean s).getLast?.any isPyWs = false := by
    simp only [noOuterWs, Bool.not_eq_true', Bool.or_eq_false_iff] at h
    exact h
  rw [hexp] at hws ⊢
  exact min_clean_fixed_point _
    (noAdjWs_map_lowerChar _ hv1)
    (wsAllSp_map_lowerChar _ hv2)
    (head_any_punct_map_lower _ hvh)
    (getLast_any_punct_map_lower _ hvl)
    (map_lowerChar_idem _)
    hws.1 hws.2

/-- C5 (witness): the hypothesis and amended conclusion at the concrete input
"Acme Inc." (whose cleaned form "acme inc" has no outer whitespace). -/
theorem min_clean_idem_witness :
    noOuterWs (min_clean (chars "Acme Inc.")) = true ∧
    min_clean (min_clean (chars "Acme Inc.")) = min_clean (chars "Acme Inc.") :=
  ⟨by decide, min_clean_idem_of_no_outer_ws (chars "Acme Inc.") (by decide)⟩

/-! ### Guardrail claims -/


/-! ### Guardrail claims -/

theorem pyMin_eq_min (a b : ℚ) : pyMin a b = min a b := by
  unfold pyMin
  rcases lt_or_ge b a with h | h
  · rw [if_pos h, min_eq_right h.le]
  · rw [if_neg (not_lt.mpr h), min_eq_left h]

theorem divInt_three_ten_eq : Rat.divInt 3 10 = (3 : ℚ)/10 := by
  rw [Rat.divInt_eq_div]; norm_num

theorem divInt_one_two_eq : Rat.divInt 1 2 = (1 : ℚ)/2 := by
  rw [Rat.divInt_eq_div]; norm_num

/-- Confidence component of `apply_guardrails`, read off the definition. -/
theorem apply_guardrails_confidence_eq (raw_name : Str) (payload : Payload) :
    (apply_guardrails raw_name payload).confidence =
      if token_overlap raw_name (effective_canonical raw_name payload) < Rat.divInt 3 10
      then pyMin (pre_cap_confidence payload) (Rat.divInt 1 2)
      else pre_cap_confidence payload := rfl

/-- Flags component of `apply_guardrails`, read off the definition. -/
theorem apply_guardrails_flags_eq (raw_name : Str) (payload : Payload) :
    (apply_guardrails raw_name payload).flags =
      (if pyStrip isPyWs (payload.canonical.getD []) = [] then ["empty_canonical"] else []) ++
      (if token_overlap raw_name (effective_canonical raw_name payload) < Rat.divInt 3 10
       then ["low_token_overlap"] else []) ++
      (if clean_company_name (effective_canonical raw_name payload) = []
       then ["fallback_display"] else []) := rfl

/-- Payload with an out-of-range confidence for the C6 counterexample. -/
def c6Payload : Payload :=
  { canonical := some (chars "acme"), is_new := some false,
    confidence := some 2, reason := none }

/-- C6 (counterexample): `apply_guardrails` does not clamp confidence to
[0,1]; a payload with confidence 2.0 and full token overlap passes through
unchanged, so the result's confidence is 2, outside [0,1]. -/
theorem guardrail_confidence_exceeds_one :
    1 < (apply_guardrails (chars "acme") c6Payload).confidence := by decide

/-- C6 (amended): whenever the payload's confidence lies in [0,1] — which is
what schema validation guarantees for classifier payloads — the
`GuardrailResult` confidence stays in [0,1]: the empty-canonical rule forces
it to 0 and the low-overlap rule takes a min with 0.5. -/
theorem guardrail_confidence_unit_interval (raw_name : Str) (payload : Payload)
    (h0 : 0 ≤ payload.confidence.getD 0) (h1 : payload.confidence.getD 0 ≤ 1) :
    0 ≤ (apply_guardrails raw_name payload).confidence ∧
    (apply_guardrails raw_name payload).confidence ≤ 1 := by
  rw [apply_guardrails_confidence_eq, pyMin_eq_min]
  have hpre : 0 ≤ pre_cap_confidence payload ∧ pre_cap_confidence payload ≤ 1 := by
    unfold pre_cap_confidence
    split_ifs
    · exact ⟨le_refl 0, by norm_num⟩
    · exact ⟨h0, h1⟩
  split_ifs
  · constructor
    · exact le_min hpre.1 (by rw [divInt_one_two_eq]; norm_num)
    · exact (min_le_left _ _).trans hpre.2
  · exact hpre

/-- Payload with an in-range confidence for the C6 witness. -/
def c6WitnessPayload : Payload :=
  { canonical := some (chars "Acme"), is_new := some false,
    confidence := some (Rat.divInt 9 10), reason := none }

/-- C6 (witness): the amended theorem applied at a concrete in-range payload. -/
theorem guardrail_confidence_unit_interval_witness :
    0 ≤ c6WitnessPayload.confidence.getD 0 ∧
    c6WitnessPayload.confidence.getD 0 ≤ 1 ∧
    (0 ≤ (apply_guardrails (chars "Acme Inc") c6WitnessPayload).confidence ∧
     (apply_guardrails (chars "Acme Inc") c6WitnessPayload).confidence ≤ 1) :=
  ⟨by decide, by decide,
    guardrail_confidence_unit_interval (chars "Acme Inc") c6WitnessPayload
      (by decide) (by decide)⟩

/-- Classifier payload of the C9 concrete instance: an unrelated canonical
with confidence 0.95. -/
def c9Payload : Payload :=
  { canonical := some (chars "Completely Different Brand"), is_new := some true,
    confidence := some (Rat.divInt 95 100), reason := some [] }

/-- C9: whenever the token-set Jaccard overlap between the raw name and the
(post-rule-1) canonical is below 3/10, `apply_guardrails` caps the
confidence at 1/2 (a `min` with the pre-cap value) and appends the
`low_token_overlap` flag; in particular, raw name "Acme Facility Services"
with canonical "Completely Different Brand" and confidence 0.95 yields
confidence exactly 1/2 with the flag present. -/
theorem low_overlap_caps_confidence :
    (∀ (raw_name : Str) (payload : Payload),
        token_overlap raw_name (effective_canonical raw_name payload) < (3 : ℚ)/10 →
        "low_token_overlap" ∈ (apply_guardrails raw_name payload).flags ∧
        (apply_guardrails raw_name payload).confidence
          = pyMin (pre_cap_confidence payload) ((1 : ℚ)/2)) ∧
    ((apply_guardrails (chars "Acme Facility Services") c9Payload).confidence = (1 : ℚ)/2 ∧
     "low_token_overlap" ∈ (apply_guardrails (chars "Acme Facility Services") c9Payload).flags) := by
  constructor
  · intro raw_name payload h
    rw [← divInt_three_ten_eq] at h
    constructor
    · rw [apply_guardrails_flags_eq, if_pos h]
      simp
    · rw [apply_guardrails_confidence_eq, if_pos h, divInt_one_two_eq]
  · constructor
    · rw [← divInt_one_two_eq]; decide
    · decide

/-- C9 (witness): the overlap hypothesis and the capped conclusion at the
concrete instance of the claim. -/
theorem low_overlap_caps_confidence_witness :
    token_overlap (chars "Acme Facility Services")
        (effective_canonical (chars "Acme Facility Services") c9Payload) < (3 : ℚ)/10 ∧
    ("low_token_overlap" ∈ (apply_guardrails (chars "Acme Facility Services") c9Payload).flags ∧
     (apply_guardrails (chars "Acme Facility Services") c9Payload).confidence
       = pyMin (pre_cap_confidence c9Payload) ((1 : ℚ)/2)) :=
  ⟨by rw [← divInt_three_ten_eq]; decide,
   low_overlap_caps_confidence.1 (chars "Acme Facility Services") c9Payload
     (by rw [← divInt_three_ten_eq]; decide)⟩

/-- C10: the flags of every `GuardrailResult` form a subsequence of
("empty_canonical", "low_token_overlap", "fallback_display"): only these
three tags occur, each at most once, in that relative order. -/
theorem guardrail_flags_ordered_sublist (raw_name : Str) (payload : Payload) :
    (apply_guardrails raw_name payload).flags.Sublist
      ["empty_canonical", "low_token_overlap", "fallback_display"] := by
  rw [apply_guardrails_flags_eq]
  split_ifs <;> simp

/-! ### Worker pipeline model (app/workers/normalize_worker.py) -/

/-- Translation of `exact_cache_key` (app/stores/cache.py lines 37-40):
"norm:" ++ CACHE_VERSION ++ ":" ++ sha1(min_clean raw).  The SHA-1 digest
(external library code) is modelled as the identity embedding of the
cleaned string, which is faithful up to hash collisions: two raw names
share a cache key exactly when they share their `min_clean` form. -/
def exact_cache_key (raw_name : Str) : Str := min_clean raw_name

/-- Input record (`NormalizeRecord` of app/api/schemas.py); `country_hint`
is never read by the worker and is omitted. -/
structure NormalizeRecord where
  id : String
  raw_name : Str
  source : String
  deriving DecidableEq

/-- Result object (`CanonicalResult` of app/api/schemas.py lines 20-27):
canonical, is_new, confidence, reason, key_form, display_form, flags. -/
structure CanonicalResult where
  canonical : Str
  is_new : Bool
  confidence : ℚ
  reason : Option Str
  key_form : Str
  display_form : Str
  flags : List String
  deriving DecidableEq

/-- Per-record output (`NormalizeResponseItem` of app/api/schemas.py lines
30-35): at most one of `result` / `error` is populated by the worker. -/
structure NormalizeResponseItem where
  id : String
  raw_name : Str
  cached : Bool
  result : Option CanonicalResult := none
  error : Option String := none
  deriving DecidableEq

/-- Transient work unit (`PendingItem`, normalize_worker.py lines 27-33). -/
structure PendingItem where
  id : String
  raw_name : Str
  source : String
  cache_key : Str
  retry_suffix : Option String := none
  deriving DecidableEq

/-- Corrective instruction appended on validation retry
(normalize_worker.py line 24). -/
def INVALID_SUFFIX : String := "Invalid JSON, return valid JSON only."

/-- Python dict lookup on an insertion-ordered association list. -/
def getKV {κ α : Type} [DecidableEq κ] (l : List (κ × α)) (k : κ) : Option α :=
  (l.find? (fun p => decide (p.1 = k))).map (fun p => p.2)

/-- Python dict assignment: replace in place when the key exists, else
append at the end (insertion order). -/
def setKV {κ α : Type} [DecidableEq κ] (l : List (κ × α)) (k : κ) (v : α) :
    List (κ × α) :=
  if l.any (fun p => decide (p.1 = k)) then
    l.map (fun p => if p.1 = k then (k, v) else p)
  else l ++ [(k, v)]

/-- Keys of an association list, in insertion order. -/
def kvKeys {κ α : Type} (l : List (κ × α)) : List κ := l.map Prod.fst

/-- Python `k in d` on an association list. -/
def hasKV {κ α : Type} [DecidableEq κ] (l : List (κ × α)) (k : κ) : Bool :=
  decide (k ∈ kvKeys l)

/-- Row of a request to `normalize_batch_gpt4o_mini`
(normalize_worker.py lines 184-191). -/
structure LLMRequestRow where
  id : String
  raw_name : Str
  retry_suffix : Option String
  deriving DecidableEq

/-- Row of a classifier response: `row.get("id")` and `row.get("payload")`
may each be absent. -/
structure LLMRow where
  id : Option String := none
  payload : Option Payload := none
  deriving DecidableEq

/-- One logical classifier call for a chunk: either a list of response rows
or a raised transport-level exception (`Except.error`).  The external
service (app/workers/llm_client.py) is an out-of-scope collaborator and is
a parameter of the model; within one `_call_llm_with_retry` run the two
attempts always carry different request lists (the retry rows carry
`INVALID_SUFFIX`), so a function of the request list covers every
reachable behaviour. -/
abbrev LLMCall := List LLMRequestRow → Except Unit (List LLMRow)

/-- Request rows sent for a queue of pending items
(normalize_worker.py lines 184-191). -/
def llm_request_rows (pending : List PendingItem) : List LLMRequestRow :=
  pending.map (fun item =>
    { id := item.id, raw_name := item.raw_name, retry_suffix := item.retry_suffix })

/-- Translation of `response_by_id = {row.get("id"): row for row in llm_rows}`
followed by `.get(k)` (lines 198, 201): the last row carrying id `k` wins. -/
def response_by_id (rows : List LLMRow) (k : String) : Option LLMRow :=
  (rows.filter (fun r => decide (r.id = some k))).getLast?

/-- One pass of the per-item loop of `_call_llm_with_retry`
(normalize_worker.py lines 200-227) over the current retry queue: items with
no row fail with `missing_response`; rows without payload fail with
`llm_call_failed`; invalid payloads are queued for retry (first attempt,
with `INVALID_SUFFIX`) or fail with `invalid_output` (second attempt); valid
payloads are recorded as successes.  Returns (successes, failures,
next_retry). -/
def runAttempt (valid : Payload → Bool) (first : Bool) (rows : List LLMRow) :
    List PendingItem → List (String × Payload) → List (String × String) →
    List (String × Payload) × List (String × String) × List PendingItem
  | [], succ, fail => (succ, fail, [])
  | item :: rest, succ, fail =>
    match response_by_id rows item.id with
    | none => runAttempt valid first rows rest succ (setKV fail item.id "missing_response")
    | some row =>
      match row.payload with
      | none => runAttempt valid first rows rest succ (setKV fail item.id "llm_call_failed")
      | some payload =>
        if valid payload then
          runAttempt valid first rows rest (setKV succ item.id payload) fail
        else if first then
          let out := runAttempt valid first rows rest succ fail
          (out.1, out.2.1,
            { id := item.id, raw_name := item.raw_name, source := item.source,
              cache_key := item.cache_key, retry_suffix := some INVALID_SUFFIX } :: out.2.2)
        else
          runAttempt valid first rows rest succ (setKV fail item.id "invalid_output")

/-- Assignment of `kind` to every queued item id, in queue order
(the loops at normalize_worker.py lines 194-195 and 230-231). -/
def failAllWith (fail : List (String × String)) (queue : List PendingItem)
    (kind : String) : List (String × String) :=
  queue.foldl (fun f item => setKV f item.id kind) fail

/-- Translation of `_call_llm_with_retry` (normalize_worker.py lines
175-232), with the two iterations of `for attempt in range(2)` unrolled.
Control flow, faithfully to the source:
* an empty pending list breaks out immediately;
* a transport exception on either attempt writes `llm_call_failed` for every
  item still in the retry queue and breaks — after which the post-loop sweep
  `for item in retry_queue: failures[item.id] = "invalid_output"` (line 231)
  runs over the same, never-cleared queue and OVERWRITES those entries with
  `invalid_output`;
* after a successful second attempt the retry queue is empty (items are
  re-queued only when `attempt == 0`), so the sweep is a no-op there. -/
def call_llm_with_retry (llm : LLMCall) (valid : Payload → Bool)
    (pending : List PendingItem) :
    List (String × Payload) × List (String × String) :=
  if pending.isEmpty then ([], [])
  else
    match llm (llm_request_rows pending) with
    | .error _ =>
      ([], failAllWith (failAllWith [] pending "llm_call_failed") pending "invalid_output")
    | .ok rows =>
      match runAttempt valid true rows pending [] [] with
      | (succ1, fail1, retry1) =>
        if retry1.isEmpty then (succ1, fail1)
        else
          match llm (llm_request_rows retry1) with
          | .error _ =>
            (succ1, failAllWith (failAllWith fail1 retry1 "llm_call_failed")
                      retry1 "invalid_output")
          | .ok rows2 =>
            match runAttempt valid false rows2 retry1 succ1 fail1 with
            | (succ2, fail2, retry2) =>
              (succ2, failAllWith fail2 retry2 "invalid_output")

/-- The item `_to_response` (normalize_worker.py lines 234-251) is MEANT to
produce, as specified by the repository's own tests: the `CanonicalResult`
built from the guard's fields (`CanonicalResult` in app/api/schemas.py
declares no `canonical_with_article` / `article_policy` fields, so those
keyword arguments would be dropped by the pydantic model in any case).
This is the intended-behaviour reading only, used on the claim side of C1;
the program as written additionally reads `guard.canonical_with_article`
and `guard.article_policy` — attributes the `GuardrailResult` dataclass
does not declare — so in Python every call raises `AttributeError` before
any item is produced.  `to_responseE` below is the as-written semantics
(the exception modelled by `Except`), and the pipeline behaviour claims
are settled against the `…E` model. -/
def to_response (record : NormalizeRecord) (guard : GuardrailResult)
    (cached : Bool) : NormalizeResponseItem :=
  { id := record.id
    raw_name := record.raw_name
    cached := cached
    result := some
      { canonical := guard.canonical
        is_new := guard.is_new
        confidence := guard.confidence
        reason := guard.reason
        key_form := guard.key_form
        display_form := guard.display_form
        flags := guard.flags }
    error := none }

/-- State threaded through the first loop of `_process_chunk`
(normalize_worker.py lines 69-119): outputs so far, pending classifier
items, the `lookup_by_id` / `cache_key_by_id` dicts, the in-batch dedup map
`seen_in_batch`, the deferred duplicates, and the exact-cache contents. -/
structure ChunkState where
  outputs : List NormalizeResponseItem
  pending : List PendingItem
  lookup_by_id : List (String × NormalizeRecord)
  cache_key_by_id : List (String × Str)
  seen_in_batch : List (Str × String)
  deferred_duplicates : List (NormalizeRecord × Str)
  cache : List (Str × Payload)
  deriving DecidableEq

/-- Translation of the per-record routing of `_process_chunk` (lines
82-119): in-batch dedup first, then exact cache, then near-duplicate lookup
(whose hit is written through to the exact cache under the querying
record's key), and finally the pending queue.  The near-dupe backend `nd`
is an out-of-scope collaborator parameter (`near_dupe_lookup`); its
internal write-back under the matched record's key is not modelled.  This
and the following phase functions use the intended, item-producing
`to_response`; the as-written variants (propagating the `AttributeError`
of `_to_response`) are the `…E` functions below. -/
def route_record (nd : Str → Option Payload) (st : ChunkState)
    (record : NormalizeRecord) : ChunkState :=
  let cache_key := exact_cache_key record.raw_name
  if hasKV st.seen_in_batch cache_key then
    { st with deferred_duplicates := st.deferred_duplicates ++ [(record, cache_key)] }
  else
    match getKV st.cache cache_key with
    | some cached_payload =>
      { st with
        outputs := st.outputs ++
          [to_response record (apply_guardrails record.raw_name cached_payload) true]
        seen_in_batch := setKV st.seen_in_batch cache_key record.id }
    | none =>
      match nd record.raw_name with
      | some near_payload =>
        { st with
          outputs := st.outputs ++
            [to_response record (apply_guardrails record.raw_name near_payload) true]
          cache := setKV st.cache cache_key near_payload
          seen_in_batch := setKV st.seen_in_batch cache_key record.id }
      | none =>
        { st with
          seen_in_batch := setKV st.seen_in_batch cache_key record.id
          pending := st.pending ++
            [{ id := record.id, raw_name := record.raw_name,
               source := record.source, cache_key := cache_key }]
          lookup_by_id := setKV st.lookup_by_id record.id record
          cache_key_by_id := setKV st.cache_key_by_id record.id cache_key }

/-- Initial routing state of a chunk: all dicts and lists empty, the cache
holding the store contents when the chunk starts. -/
def initChunkState (cache0 : List (Str × Payload)) : ChunkState :=
  { outputs := [], pending := [], lookup_by_id := [], cache_key_by_id := [],
    seen_in_batch := [], deferred_duplicates := [], cache := cache0 }

/-- First phase of `_process_chunk`: route every record of the chunk. -/
def route_chunk (nd : Str → Option Payload) (cache0 : List (Str × Payload))
    (chunk : List NormalizeRecord) : ChunkState :=
  chunk.foldl (route_record nd) (initChunkState cache0)

/-- State of the classifier phase of `_process_chunk` (lines 121-145). -/
structure LLMPhase where
  outputs : List NormalizeResponseItem
  errors : List String
  payload_by_cache_key : List (Str × Payload)
  cache : List (Str × Payload)
  deriving DecidableEq

/-- Translation of the success loop body (lines 127-133): look up the
record, re-run the guardrails, write the payload through to the cache and
to `payload_by_cache_key`, and append the response item.  The `none`
branches are unreachable (`lookup_by_id` / `cache_key_by_id` cover every
pending id — in Python an impossible `KeyError`). -/
def apply_success (st : ChunkState) (acc : LLMPhase) (entry : String × Payload) :
    LLMPhase :=
  match getKV st.lookup_by_id entry.1 with
  | some record =>
    match getKV st.cache_key_by_id entry.1 with
    | some ck =>
      { acc with
        outputs := acc.outputs ++
          [to_response record (apply_guardrails record.raw_name entry.2) false]
        cache := setKV acc.cache ck entry.2
        payload_by_cache_key := setKV acc.payload_by_cache_key ck entry.2 }
    | none => acc
  | none => acc

/-- Translation of the failure loop body (lines 135-145): an error item and
an "id:error" entry.  The `none` branch is unreachable as in
`apply_success`. -/
def apply_failure (st : ChunkState) (acc : LLMPhase) (entry : String × String) :
    LLMPhase :=
  match getKV st.lookup_by_id entry.1 with
  | some record =>
    { acc with
      outputs := acc.outputs ++
        [{ id := record.id, raw_name := record.raw_name, cached := false,
           error := some entry.2 }]
      errors := acc.errors ++ [record.id ++ ":" ++ entry.2] }
  | none => acc

/-- Classifier phase of `_process_chunk` (lines 121-145): skipped entirely
when nothing is pending; otherwise one `_call_llm_with_retry` run followed
by the success and failure loops. -/
def llm_phase (llm : LLMCall) (valid : Payload → Bool) (st : ChunkState) :
    LLMPhase :=
  if st.pending.isEmpty then
    { outputs := [], errors := [], payload_by_cache_key := [], cache := st.cache }
  else
    match call_llm_with_retry llm valid st.pending with
    | (successes, failed) =>
      let afterS := successes.foldl (apply_success st)
        { outputs := [], errors := [], payload_by_cache_key := [], cache := st.cache }
      failed.foldl (apply_failure st) afterS

/-- Translation of the deferred-duplicate resolution (lines 147-164): the
payload comes from this chunk's fresh successes
(`payload_by_cache_key.get(k)`) or, failing that, from the exact cache
(`or cache_get(k)`); with a payload the item is a `cached=True` result from
re-applying the guardrails to the duplicate's own raw name, otherwise the
item carries the `duplicate_of_failed_item` error (plus its errors-list
entry, returned as the second component). -/
def resolve_deferred (payload_by_cache_key cache : List (Str × Payload))
    (entry : NormalizeRecord × Str) : NormalizeResponseItem × Option String :=
  match (getKV payload_by_cache_key entry.2).orElse (fun _ => getKV cache entry.2) with
  | some payload =>
    (to_response entry.1 (apply_guardrails entry.1.raw_name payload) true, none)
  | none =>
    ({ id := entry.1.id, raw_name := entry.1.raw_name, cached := false,
       error := some "duplicate_of_failed_item" },
     some (entry.1.id ++ ":duplicate_of_failed_item"))

/-- Translation of `_process_chunk` (normalize_worker.py lines 64-173):
returns (outputs, errors, final cache contents).  Output order follows the
source's appends: cache/near-dupe hits during routing, then classifier
successes, then classifier failures, then deferred duplicates. -/
def process_chunk (nd : Str → Option Payload) (llm : LLMCall)
    (valid : Payload → Bool) (cache0 : List (Str × Payload))
    (chunk : List NormalizeRecord) :
    List NormalizeResponseItem × List String × List (Str × Payload) :=
  let st := route_chunk nd cache0 chunk
  let ph := llm_phase llm valid st
  let resolved := st.deferred_duplicates.map
    (resolve_deferred ph.payload_by_cache_key ph.cache)
  (st.outputs ++ ph.outputs ++ resolved.map Prod.fst,
   ph.errors ++ resolved.filterMap Prod.snd,
   ph.cache)

/-- Translation of `batched` (normalize_worker.py lines 36-38), with the
list length as structural fuel.  A chunk size of 0 makes Python's `range`
raise and is unreachable (`BATCH_SIZE` is 500 and positive throughout). -/
def batchedGo {α : Type} (size : Nat) : Nat → List α → List (List α)
  | _, [] => []
  | 0, l => [l]
  | fuel+1, x :: xs => ((x :: xs).take size) :: batchedGo size fuel ((x :: xs).drop size)

/-- Translation of `batched`. -/
def batched {α : Type} (size : Nat) (l : List α) : List (List α) :=
  batchedGo size l.length l

/-- Translation of `_process_records` (normalize_worker.py lines 50-62):
fold `_process_chunk` over the chunks, concatenating outputs and errors and
threading the cache. -/
def process_records (nd : Str → Option Payload) (llm : LLMCall)
    (valid : Payload → Bool) (batch_size : Nat) (cache0 : List (Str × Payload))
    (records : List NormalizeRecord) :
    List NormalizeResponseItem × List String × List (Str × Payload) :=
  (batched batch_size records).foldl
    (fun acc chunk =>
      match process_chunk nd llm valid acc.2.2 chunk with
      | (outs, errs, cache) => (acc.1 ++ outs, acc.2.1 ++ errs, cache))
    ([], [], cache0)

/-- Job lifecycle states (`JobStatus`, app/stores/db.py lines 37-42);
`partly` models the enum value "partial". -/
inductive JobStatus | queued | running | done | failed | partly
  deriving DecidableEq

/-- Job row (`JobRun`, app/stores/db.py lines 74-84), restricted to the
fields `process_job` can touch. -/
structure JobRun where
  status : JobStatus
  success_count : Nat
  error_count : Nat
  deriving DecidableEq

/-- Intended-behaviour reading of `process_job` (normalize_worker.py lines
253-264): `set_job_status(running)`, run the records, then `done` when the
error list is empty and `partial` otherwise.  The counters are never
touched: the only caller of `increment_job_progress` (db.py lines 193-203)
is `upsert_alias_result`, and every `upsert_alias_result` call in
`_process_chunk` is commented out ("Disabled for performance", lines 97,
107, 132); no error path increments `error_count` anywhere.  The `failed`
branch (an exception escaping `_process_records`) has no counterpart here
because this idealized pipeline is total; `process_jobE` below is the
as-written semantics including that branch. -/
def process_job (nd : Str → Option Payload) (llm : LLMCall)
    (valid : Payload → Bool) (batch_size : Nat) (cache0 : List (Str × Payload))
    (job : JobRun) (records : List NormalizeRecord) :
    JobRun × List NormalizeResponseItem × List String :=
  let running := { job with status := JobStatus.running }
  match process_records nd llm valid batch_size cache0 records with
  | (results, errors, _) =>
    ({ running with
        status := if errors.isEmpty then JobStatus.done else JobStatus.partly },
     results, errors)

/-! ### The worker as written: `_to_response`'s `AttributeError` propagated

The source `_to_response` reads `guard.canonical_with_article` and
`guard.article_policy` (normalize_worker.py lines 237-238), attributes the
`GuardrailResult` dataclass does not declare, so in Python every call
raises `AttributeError`.  The `…E` functions below are the same worker
translation with that exception propagated (`Except`), exactly as an
uncaught Python exception propagates: it aborts the enclosing chunk, then
`_process_records`, and is caught only by `process_job`'s `except` branch,
which marks the job `failed` and re-raises.  Store writes performed before
the exception fires (a `cache_set` preceding an aborted append) are not
tracked on the error path: they are unobservable there, since the run
produces no further output. -/

inductive PyExc | attributeError
  deriving DecidableEq

/-- `_to_response` as written: building the `CanonicalResult` reads the
attributes listed in `toResponseGuardReads`; those in
`toResponseMissingAttrs` are not dataclass fields of `GuardrailResult`, so
the construction raises `AttributeError` and no item escapes.  Were the
read list covered by the fields, the call would return the item
`to_response` builds. -/
def to_responseE (record : NormalizeRecord) (guard : GuardrailResult)
    (cached : Bool) : Except PyExc NormalizeResponseItem :=
  if toResponseMissingAttrs.isEmpty then .ok (to_response record guard cached)
  else .error PyExc.attributeError

/-- `route_record` as written: the cache-hit and near-dupe-hit branches call
`_to_response`, so they propagate its exception. -/
def route_recordE (nd : Str → Option Payload) (st : ChunkState)
    (record : NormalizeRecord) : Except PyExc ChunkState :=
  let cache_key := exact_cache_key record.raw_name
  if hasKV st.seen_in_batch cache_key then
    .ok { st with deferred_duplicates := st.deferred_duplicates ++ [(record, cache_key)] }
  else
    match getKV st.cache cache_key with
    | some cached_payload =>
      match to_responseE record (apply_guardrails record.raw_name cached_payload) true with
      | .error e => .error e
      | .ok item =>
        .ok { st with
          outputs := st.outputs ++ [item]
          seen_in_batch := setKV st.seen_in_batch cache_key record.id }
    | none =>
      match nd record.raw_name with
      | some near_payload =>
        match to_responseE record (apply_guardrails record.raw_name near_payload) true with
        | .error e => .error e
        | .ok item =>
          .ok { st with
            outputs := st.outputs ++ [item]
            cache := setKV st.cache cache_key near_payload
            seen_in_batch := setKV st.seen_in_batch cache_key record.id }
      | none =>
        .ok { st with
          seen_in_batch := setKV st.seen_in_batch cache_key record.id
          pending := st.pending ++
            [{ id := record.id, raw_name := record.raw_name,
               source := record.source, cache_key := cache_key }]
          lookup_by_id := setKV st.lookup_by_id record.id record
          cache_key_by_id := setKV st.cache_key_by_id record.id cache_key }

/-- The routing loop as written: stops at the first record whose routing
raises. -/
def route_goE (nd : Str → Option Payload) :
    ChunkState → List NormalizeRecord → Except PyExc ChunkState
  | st, [] => .ok st
  | st, r :: rest =>
    match route_recordE nd st r with
    | .error e => .error e
    | .ok st' => route_goE nd st' rest

/-- First phase of `_process_chunk` as written. -/
def route_chunkE (nd : Str → Option Payload) (cache0 : List (Str × Payload))
    (chunk : List NormalizeRecord) : Except PyExc ChunkState :=
  route_goE nd (initChunkState cache0) chunk

/-- The success-loop body as written: the `cache_set` and
`payload_by_cache_key` writes precede the `_to_response` call in the
source, but when the call raises, the whole chunk is aborted and those
writes are unobservable, so the error path carries no state. -/
def apply_successE (st : ChunkState) (acc : LLMPhase)
    (entry : String × Payload) : Except PyExc LLMPhase :=
  match getKV st.lookup_by_id entry.1 with
  | some record =>
    match getKV st.cache_key_by_id entry.1 with
    | some ck =>
      match to_responseE record (apply_guardrails record.raw_name entry.2) false with
      | .error e => .error e
      | .ok item =>
        .ok { acc with
          outputs := acc.outputs ++ [item]
          cache := setKV acc.cache ck entry.2
          payload_by_cache_key := setKV acc.payload_by_cache_key ck entry.2 }
    | none => .ok acc
  | none => .ok acc

/-- The success loop as written: stops at the first raising entry. -/
def apply_successGoE (st : ChunkState) :
    LLMPhase → List (String × Payload) → Except PyExc LLMPhase
  | acc, [] => .ok acc
  | acc, e :: rest =>
    match apply_successE st acc e with
    | .error exc => .error exc
    | .ok acc' => apply_successGoE st acc' rest

/-- Classifier phase of `_process_chunk` as written: the failure loop
builds its items directly (no `_to_response`), so only the success loop
can raise. -/
def llm_phaseE (llm : LLMCall) (valid : Payload → Bool) (st : ChunkState) :
    Except PyExc LLMPhase :=
  if st.pending.isEmpty then
    .ok { outputs := [], errors := [], payload_by_cache_key := [], cache := st.cache }
  else
    match call_llm_with_retry llm valid st.pending with
    | (successes, failed) =>
      match apply_successGoE st
          { outputs := [], errors := [], payload_by_cache_key := [], cache := st.cache }
          successes with
      | .error e => .error e
      | .ok afterS => .ok (failed.foldl (apply_failure st) afterS)

/-- Deferred-duplicate resolution as written: the payload-found branch
calls `_to_response` and so raises; the no-payload branch builds the
`duplicate_of_failed_item` error directly. -/
def resolve_deferredE (P C : List (Str × Payload)) (entry : NormalizeRecord × Str) :
    Except PyExc (NormalizeResponseItem × Option String) :=
  match (getKV P entry.2).orElse (fun _ => getKV C entry.2) with
  | some payload =>
    match to_responseE entry.1 (apply_guardrails entry.1.raw_name payload) true with
    | .error e => .error e
    | .ok item => .ok (item, none)
  | none =>
    .ok ({ id := entry.1.id, raw_name := entry.1.raw_name, cached := false,
           error := some "duplicate_of_failed_item" },
         some (entry.1.id ++ ":duplicate_of_failed_item"))

/-- The deferred-duplicate loop as written. -/
def resolveGoE (P C : List (Str × Payload)) :
    List (NormalizeRecord × Str) →
    Except PyExc (List (NormalizeResponseItem × Option String))
  | [] => .ok []
  | e :: rest =>
    match resolve_deferredE P C e with
    | .error exc => .error exc
    | .ok r =>
      match resolveGoE P C rest with
      | .error exc => .error exc
      | .ok rs => .ok (r :: rs)

/-- `_process_chunk` as written (normalize_worker.py lines 64-173): the
three phases in source order, each propagating the `_to_response`
exception. -/
def process_chunkE (nd : Str → Option Payload) (llm : LLMCall)
    (valid : Payload → Bool) (cache0 : List (Str × Payload))
    (chunk : List NormalizeRecord) :
    Except PyExc (List NormalizeResponseItem × List String × List (Str × Payload)) :=
  match route_chunkE nd cache0 chunk with
  | .error e => .error e
  | .ok st =>
    match llm_phaseE llm valid st with
    | .error e => .error e
    | .ok ph =>
      match resolveGoE ph.payload_by_cache_key ph.cache st.deferred_duplicates with
      | .error e => .error e
      | .ok resolved =>
        .ok (st.outputs ++ ph.outputs ++ resolved.map Prod.fst,
             ph.errors ++ resolved.filterMap Prod.snd,
             ph.cache)

/-- The chunk loop of `_process_records` as written: a raising chunk
aborts the loop and loses the locally accumulated responses and errors. -/
def process_recordsGoE (nd : Str → Option Payload) (llm : LLMCall)
    (valid : Payload → Bool) :
    List NormalizeResponseItem × List String × List (Str × Payload) →
    List (List NormalizeRecord) →
    Except PyExc (List NormalizeResponseItem × List String × List (Str × Payload))
  | acc, [] => .ok acc
  | acc, chunk :: rest =>
    match process_chunkE nd llm valid acc.2.2 chunk with
    | .error e => .error e
    | .ok (outs, errs, cache) =>
      process_recordsGoE nd llm valid (acc.1 ++ outs, acc.2.1 ++ errs, cache) rest

/-- `_process_records` as written (normalize_worker.py lines 50-62). -/
def process_recordsE (nd : Str → Option Payload) (llm : LLMCall)
    (valid : Payload → Bool) (batch_size : Nat) (cache0 : List (Str × Payload))
    (records : List NormalizeRecord) :
    Except PyExc (List NormalizeResponseItem × List String × List (Str × Payload)) :=
  process_recordsGoE nd llm valid ([], [], cache0) (batched batch_size records)

/-- `process_job` as written (normalize_worker.py lines 253-264):
`set_job_status(running)`, then the records; on a normal return the status
becomes `done`/`partial` by the error list, and an escaping exception is
caught by the `except` branch, which sets the status to `failed` and
re-raises (the second component carries the re-raised exception to the
caller). -/
def process_jobE (nd : Str → Option Payload) (llm : LLMCall)
    (valid : Payload → Bool) (batch_size : Nat) (cache0 : List (Str × Payload))
    (job : JobRun) (records : List NormalizeRecord) :
    JobRun × Except PyExc (List NormalizeResponseItem × List String) :=
  let running := { job with status := JobStatus.running }
  match process_recordsE nd llm valid batch_size cache0 records with
  | .ok (results, errors, _) =>
    ({ running with
        status := if errors.isEmpty then JobStatus.done else JobStatus.partly },
     .ok (results, errors))
  | .error e => ({ running with status := JobStatus.failed }, .error e)

/-! ### Association-list (Python dict) lemmas -/

theorem any_key_iff {κ α : Type} [DecidableEq κ] (l : List (κ × α)) (k : κ) :
    l.any (fun p => decide (p.1 = k)) = true ↔ k ∈ kvKeys l := by
  simp only [List.any_eq_true, decide_eq_true_eq, kvKeys, List.mem_map]

theorem kvKeys_setKV_of_mem {κ α : Type} [DecidableEq κ] (l : List (κ × α))
    (k : κ) (v : α) (h : k ∈ kvKeys l) : kvKeys (setKV l k v) = kvKeys l := by
  unfold setKV
  rw [if_pos ((any_key_iff l k).mpr h)]
  unfold kvKeys
  rw [List.map_map]
  apply List.map_congr_left
  intro p _
  by_cases hp : p.1 = k
  · simp [hp]
  · simp [hp]

theorem kvKeys_setKV_of_not_mem {κ α : Type} [DecidableEq κ] (l : List (κ × α))
    (k : κ) (v : α) (h : k ∉ kvKeys l) : kvKeys (setKV l k v) = kvKeys l ++ [k] := by
  unfold setKV
  rw [if_neg (fun hc => h ((any_key_iff l k).mp hc))]
  unfold kvKeys
  rw [List.map_append]
  rfl

theorem mem_kvKeys_setKV {κ α : Type} [DecidableEq κ] (l : List (κ × α))
    (k : κ) (v : α) (k2 : κ) :
    k2 ∈ kvKeys (setKV l k v) ↔ (k2 = k ∨ k2 ∈ kvKeys l) := by
  by_cases h : k ∈ kvKeys l
  · rw [kvKeys_setKV_of_mem l k v h]
    constructor
    · exact Or.inr
    · rintro (rfl | h2)
      · exact h
      · exact h2
  · rw [kvKeys_setKV_of_not_mem l k v h, List.mem_append, List.mem_singleton]
    tauto

theorem nodup_kvKeys_setKV {κ α : Type} [DecidableEq κ] (l : List (κ × α))
    (k : κ) (v : α) (h : (kvKeys l).Nodup) : (kvKeys (setKV l k v)).Nodup := by
  by_cases hm : k ∈ kvKeys l
  · rw [kvKeys_setKV_of_mem l k v hm]; exact h
  · rw [kvKeys_setKV_of_not_mem l k v hm]
    exact List.Nodup.append h (List.nodup_singleton k)
      (by simpa [List.disjoint_singleton] using hm)

theorem find?_key_map_replace {κ α : Type} [DecidableEq κ] (l : List (κ × α))
    (k : κ) (v : α) (k2 : κ) (h : k2 ≠ k) :
    (l.map (fun p => if p.1 = k then (k, v) else p)).find? (fun p => decide (p.1 = k2))
      = l.find? (fun p => decide (p.1 = k2)) := by
  induction l with
  | nil => rfl
  | cons q rest ih =>
    simp only [List.map_cons]
    by_cases hq : q.1 = k
    · rw [if_pos hq]
      rw [List.find?_cons_of_neg _ (by simp; exact fun hc => h hc.symm)]
      rw [List.find?_cons_of_neg _ (by simp [hq]; exact fun hc => h hc.symm)]
      exact ih
    · rw [if_neg hq]
      by_cases hq2 : q.1 = k2
      · rw [List.find?_cons_of_pos _ (by simp [hq2])]
        rw [List.find?_cons_of_pos _ (by simp [hq2])]
      · rw [List.find?_cons_of_neg _ (by simp [hq2])]
        rw [List.find?_cons_of_neg _ (by simp [hq2])]
        exact ih

theorem getKV_setKV_self {κ α : Type} [DecidableEq κ] (l : List (κ × α))
    (k : κ) (v : α) : getKV (setKV l k v) k = some v := by
  unfold setKV
  split
  · rename_i hany
    rw [List.any_eq_true] at hany
    obtain ⟨p0, hp0, hp0k⟩ := hany
    rw [decide_eq_true_eq] at hp0k
    unfold getKV
    induction l with
    | nil => simp at hp0
    | cons q rest ih =>
      simp only [List.map_cons]
      by_cases hq : q.1 = k
      · rw [if_pos hq, List.find?_cons_of_pos _ (by simp)]
        rfl
      · rw [if_neg hq, List.find?_cons_of_neg _ (by simp [hq])]
        rcases List.mem_cons.mp hp0 with rfl | hp2
        · exact absurd hp0k hq
        · exact ih hp2
  · rename_i hany
    unfold getKV
    rw [List.find?_append]
    have hnone : l.find? (fun p => decide (p.1 = k)) = none := by
      rw [List.find?_eq_none]
      intro p hp hpk
      exact hany (List.any_eq_true.mpr ⟨p, hp, hpk⟩)
    rw [hnone, List.find?_cons_of_pos _ (by simp)]
    rfl

theorem getKV_setKV_ne {κ α : Type} [DecidableEq κ] (l : List (κ × α))
    (k : κ) (v : α) (k2 : κ) (h : k2 ≠ k) :
    getKV (setKV l k v) k2 = getKV l k2 := by
  unfold setKV
  split
  · unfold getKV
    rw [find?_key_map_replace l k v k2 h]
  · unfold getKV
    rw [List.find?_append]
    have hnone : ([(k, v)] : List (κ × α)).find? (fun p => decide (p.1 = k2)) = none := by
      rw [List.find?_eq_none]
      intro p hp hpk
      rw [List.mem_singleton] at hp
      rw [hp] at hpk
      simp at hpk
      exact h hpk.symm
    rw [hnone]
    simp

theorem getKV_mem_of_isSome {κ α : Type} [DecidableEq κ] (l : List (κ × α))
    (k : κ) (v : α) (h : getKV l k = some v) : k ∈ kvKeys l := by
  unfold getKV at h
  cases hf : l.find? (fun p => decide (p.1 = k)) with
  | none => rw [hf] at h; simp at h
  | some p =>
    rw [hf] at h
    have hmem := List.mem_of_find?_eq_some hf
    have hkey := List.find?_some hf
    rw [decide_eq_true_eq] at hkey
    exact hkey ▸ List.mem_map.mpr ⟨p, hmem, rfl⟩

/-! ### Claims C1 and C4 -/

/-- Cached payload used to exhibit the `_to_response` fault. -/
def c1CachedPayload : Payload :=
  { canonical := some (chars "Acme"), is_new := some false,
    confidence := some (Rat.divInt 88 100), reason := none }

/-- Record whose key is cached in the C1 scenario. -/
def c1Record : NormalizeRecord :=
  { id := "a", raw_name := chars "Acme Inc", source := "csv" }

/-- C1: `_to_response` reads the attributes `canonical_with_article` and
`article_policy` off its `GuardrailResult` argument, but the dataclass
declares neither — in Python every successful record therefore raises
`AttributeError` inside `_to_response` instead of yielding an item with
`result` set (the repository's own tests expect the item).  The second
conjunct evaluates the pipeline at the failing input — a single record
whose key has a cached payload — showing that with the item-producing
`_to_response` the tests specify, the record resolves to exactly one output
item carrying `result` (and no `error`), as the claim states. -/
theorem to_response_reads_undeclared_attrs :
    toResponseMissingAttrs = ["canonical_with_article", "article_policy"] ∧
    (process_chunk (fun _ => none) (fun _ => .error ()) (fun _ => true)
        [(exact_cache_key (chars "Acme Inc"), c1CachedPayload)] [c1Record]).1
      = [to_response c1Record (apply_guardrails (chars "Acme Inc") c1CachedPayload) true] :=
  ⟨rfl, rfl⟩

/-- Pending item of the C4 failing input. -/
def c4Item : PendingItem :=
  { id := "a", raw_name := chars "Acme Inc", source := "csv",
    cache_key := exact_cache_key (chars "Acme Inc") }

/-- C4: when the classifier call raises a transport-level exception on the
first attempt, every pending item does end up in `failures` — but with the
error kind "invalid_output", not "llm_call_failed": the post-loop sweep
(normalize_worker.py line 231) runs over the never-cleared retry queue and
overwrites the "llm_call_failed" entries written in the except-branch, so
"llm_call_failed" is a dead store on every transport-failure path. -/
theorem llm_transport_failure_reported_invalid_output :
    call_llm_with_retry (fun _ => .error ()) (fun _ => true) [c4Item]
      = ([], [("a", "invalid_output")]) := rfl

/-! ### Partition of pending items by `_call_llm_with_retry` (C8) -/

/-- Outcome class of an id within one attempt (0 = success, 1 = failure,
2 = queued for retry).  All queue items sharing an id get the same outcome
because the response row is looked up by id. -/
def attemptOutcome (valid : Payload → Bool) (first : Bool) (rows : List LLMRow)
    (k : String) : Nat :=
  match response_by_id rows k with
  | none => 1
  | some row =>
    match row.payload with
    | none => 1
    | some payload => if valid payload then 0 else if first then 2 else 1

theorem runAttempt_mem (valid : Payload → Bool) (first : Bool) (rows : List LLMRow) :
    ∀ (queue : List PendingItem) (succ : List (String × Payload))
      (fail : List (String × String)) (k : String),
      (k ∈ kvKeys (runAttempt valid first rows queue succ fail).1 ↔
        (k ∈ kvKeys succ ∨
          (k ∈ queue.map PendingItem.id ∧ attemptOutcome valid first rows k = 0))) ∧
      (k ∈ kvKeys (runAttempt valid first rows queue succ fail).2.1 ↔
        (k ∈ kvKeys fail ∨
          (k ∈ queue.map PendingItem.id ∧ attemptOutcome valid first rows k = 1))) ∧
      (k ∈ (runAttempt valid first rows queue succ fail).2.2.map PendingItem.id ↔
        (k ∈ queue.map PendingItem.id ∧ attemptOutcome valid first rows k = 2)) := by
  intro queue
  induction queue with
  | nil =>
    intro succ fail k
    simp [runAttempt]
  | cons item rest ih =>
    intro succ fail k
    cases hrow : response_by_id rows item.id with
    | none =>
      have hout : attemptOutcome valid first rows item.id = 1 := by
        simp [attemptOutcome, hrow]
      have h1 : (runAttempt valid first rows (item :: rest) succ fail).1
          = (runAttempt valid first rows rest succ (setKV fail item.id "missing_response")).1 := by
        simp [runAttempt, hrow]
      have h2 : (runAttempt valid first rows (item :: rest) succ fail).2.1
          = (runAttempt valid first rows rest succ (setKV fail item.id "missing_response")).2.1 := by
        simp [runAttempt, hrow]
      have h3 : (runAttempt valid first rows (item :: rest) succ fail).2.2
          = (runAttempt valid first rows rest succ (setKV fail item.id "missing_response")).2.2 := by
        simp [runAttempt, hrow]
      obtain ⟨ihs, ihf, ihr⟩ := ih succ (setKV fail item.id "missing_response") k
      rw [h1, h2, h3, ihs, ihf, ihr]
      by_cases hk : k = item.id <;> simp_all [mem_kvKeys_setKV]
    | some row =>
      cases hpay : row.payload with
      | none =>
        have hout : attemptOutcome valid first rows item.id = 1 := by
          simp [attemptOutcome, hrow, hpay]
        have h1 : (runAttempt valid first rows (item :: rest) succ fail).1
            = (runAttempt valid first rows rest succ (setKV fail item.id "llm_call_failed")).1 := by
          simp [runAttempt, hrow, hpay]
        have h2 : (runAttempt valid first rows (item :: rest) succ fail).2.1
            = (runAttempt valid first rows rest succ (setKV fail item.id "llm_call_failed")).2.1 := by
          simp [runAttempt, hrow, hpay]
        have h3 : (runAttempt valid first rows (item :: rest) succ fail).2.2
            = (runAttempt valid first rows rest succ (setKV fail item.id "llm_call_failed")).2.2 := by
          simp [runAttempt, hrow, hpay]
        obtain ⟨ihs, ihf, ihr⟩ := ih succ (setKV fail item.id "llm_call_failed") k
        rw [h1, h2, h3, ihs, ihf, ihr]
        by_cases hk : k = item.id <;> simp_all [mem_kvKeys_setKV]
      | some payload =>
        by_cases hv : valid payload
        · have hout : attemptOutcome valid first rows item.id = 0 := by
            simp [attemptOutcome, hrow, hpay, hv]
          have h1 : (runAttempt valid first rows (item :: rest) succ fail).1
              = (runAttempt valid first rows rest (setKV succ item.id payload) fail).1 := by
            simp [runAttempt, hrow, hpay, hv]
          have h2 : (runAttempt valid first rows (item :: rest) succ fail).2.1
              = (runAttempt valid first rows rest (setKV succ item.id payload) fail).2.1 := by
            simp [runAttempt, hrow, hpay, hv]
          have h3 : (runAttempt valid first rows (item :: rest) succ fail).2.2
              = (runAttempt valid first rows rest (setKV succ item.id payload) fail).2.2 := by
            simp [runAttempt, hrow, hpay, hv]
          obtain ⟨ihs, ihf, ihr⟩ := ih (setKV succ item.id payload) fail k
          rw [h1, h2, h3, ihs, ihf, ihr]
          by_cases hk : k = item.id <;> simp_all [mem_kvKeys_setKV]
        · cases first with
          | true =>
            have hout : attemptOutcome valid true rows item.id = 2 := by
              simp [attemptOutcome, hrow, hpay, hv]
            have h1 : (runAttempt valid true rows (item :: rest) succ fail).1
                = (runAttempt valid true rows rest succ fail).1 := by
              simp [runAttempt, hrow, hpay, hv]
            have h2 : (runAttempt valid true rows (item :: rest) succ fail).2.1
                = (runAttempt valid true rows rest succ fail).2.1 := by
              simp [runAttempt, hrow, hpay, hv]
            have h3 : (runAttempt valid true rows (item :: rest) succ fail).2.2
                = ({ id := item.id, raw_name := item.raw_name, source := item.source,
                     cache_key := item.cache_key, retry_suffix := some INVALID_SUFFIX } : PendingItem)
                  :: (runAttempt valid true rows rest succ fail).2.2 := by
              simp [runAttempt, hrow, hpay, hv]
            obtain ⟨ihs, ihf, ihr⟩ := ih succ fail k
            rw [h1, h2, h3, ihs, ihf]
            refine ⟨Iff.rfl.trans ?_, Iff.rfl.trans ?_, ?_⟩
            · by_cases hk : k = item.id <;> simp_all
            · by_cases hk : k = item.id <;> simp_all
            · simp only [List.map_cons, List.mem_cons]
              rw [ihr]
              by_cases hk : k = item.id <;> simp_all
          | false =>
            have hout : attemptOutcome valid false rows item.id = 1 := by
              simp [attemptOutcome, hrow, hpay, hv]
            have h1 : (runAttempt valid false rows (item :: rest) succ fail).1
                = (runAttempt valid false rows rest succ (setKV fail item.id "invalid_output")).1 := by
              simp [runAttempt, hrow, hpay, hv]
            have h2 : (runAttempt valid false rows (item :: rest) succ fail).2.1
                = (runAttempt valid false rows rest succ (setKV fail item.id "invalid_output")).2.1 := by
              simp [runAttempt, hrow, hpay, hv]
            have h3 : (runAttempt valid false rows (item :: rest) succ fail).2.2
                = (runAttempt valid false rows rest succ (setKV fail item.id "invalid_output")).2.2 := by
              simp [runAttempt, hrow, hpay, hv]
            obtain ⟨ihs, ihf, ihr⟩ := ih succ (setKV fail item.id "invalid_output") k
            rw [h1, h2, h3, ihs, ihf, ihr]
            by_cases hk : k = item.id <;> simp_all [mem_kvKeys_setKV]

theorem failAllWith_mem (queue : List PendingItem) :
    ∀ (fail : List (String × String)) (kind : String) (k : String),
      k ∈ kvKeys (failAllWith fail queue kind) ↔
        (k ∈ kvKeys fail ∨ k ∈ queue.map PendingItem.id) := by
  induction queue with
  | nil => intro fail kind k; simp [failAllWith]
  | cons item rest ih =>
    intro fail kind k
    show k ∈ kvKeys (failAllWith (setKV fail item.id kind) rest kind) ↔ _
    rw [ih, mem_kvKeys_setKV]
    by_cases hk : k = item.id <;> simp_all

theorem attemptOutcome_cases (valid : Payload → Bool) (first : Bool)
    (rows : List LLMRow) (k : String) :
    attemptOutcome valid first rows k = 0 ∨ attemptOutcome valid first rows k = 1 ∨
    attemptOutcome valid first rows k = 2 := by
  unfold attemptOutcome
  cases hr : response_by_id rows k with
  | none => simp
  | some row =>
    cases hp : row.payload with
    | none => simp [hp]
    | some p =>
      by_cases hv : valid p
      · simp [hp, hv]
      · cases first <;> simp [hp, hv]

theorem kvKeys_nil {κ α : Type} : kvKeys ([] : List (κ × α)) = [] := rfl

theorem call_llm_mem (llm : LLMCall) (valid : Payload → Bool)
    (pending : List PendingItem) (k : String) :
    ((k ∈ kvKeys (call_llm_with_retry llm valid pending).1 ∨
      k ∈ kvKeys (call_llm_with_retry llm valid pending).2) ↔
      k ∈ pending.map PendingItem.id) ∧
    ¬(k ∈ kvKeys (call_llm_with_retry llm valid pending).1 ∧
      k ∈ kvKeys (call_llm_with_retry llm valid pending).2) := by
  unfold call_llm_with_retry
  by_cases hemp : pending.isEmpty
  · rw [if_pos hemp]
    have hnil : pending = [] := List.isEmpty_iff.mp hemp
    subst hnil
    simp [kvKeys]
  · rw [if_neg hemp]
    cases hcall : llm (llm_request_rows pending) with
    | error e =>
      simp only
      rw [failAllWith_mem, failAllWith_mem]
      simp [kvKeys]
    | ok rows =>
      rcases hA : runAttempt valid true rows pending [] [] with ⟨succ1, fail1, retry1⟩
      obtain ⟨ihs, ihf, ihr⟩ := runAttempt_mem valid true rows pending [] [] k
      rw [hA] at ihs ihf ihr
      simp only [kvKeys_nil, List.not_mem_nil, false_or] at ihs ihf ihr
      simp only [hA]
      by_cases hret : retry1.isEmpty
      · rw [if_pos hret]
        have hretnil : retry1 = [] := List.isEmpty_iff.mp hret
        subst hretnil
        simp only [List.map_nil, List.not_mem_nil, false_iff] at ihr
        rw [ihs, ihf]
        constructor
        · constructor
          · rintro (⟨h, _⟩ | ⟨h, _⟩) <;> exact h
          · intro hmem
            rcases attemptOutcome_cases valid true rows k with h | h | h
            · exact Or.inl ⟨hmem, h⟩
            · exact Or.inr ⟨hmem, h⟩
            · exact absurd ⟨hmem, h⟩ ihr
        · rintro ⟨⟨_, h0⟩, ⟨_, h1⟩⟩
          rw [h0] at h1
          exact absurd h1 (by decide)
      · rw [if_neg hret]
        cases hcall2 : llm (llm_request_rows retry1) with
        | error e2 =>
          rw [failAllWith_mem, failAllWith_mem, ihs, ihf]
          constructor
          · constructor
            · rintro (⟨h, _⟩ | ((⟨h, _⟩ | hr) | hr))
              · exact h
              · exact h
              · exact (ihr.mp hr).1
              · exact (ihr.mp hr).1
            · intro hmem
              rcases attemptOutcome_cases valid true rows k with h | h | h
              · exact Or.inl ⟨hmem, h⟩
              · exact Or.inr (Or.inl (Or.inl ⟨hmem, h⟩))
              · exact Or.inr (Or.inr (ihr.mpr ⟨hmem, h⟩))
          · rintro ⟨⟨_, h0⟩, ((⟨_, h1⟩ | hr) | hr)⟩
            · rw [h0] at h1; exact absurd h1 (by decide)
            · have h2 := (ihr.mp hr).2
              rw [h0] at h2; exact absurd h2 (by decide)
            · have h2 := (ihr.mp hr).2
              rw [h0] at h2; exact absurd h2 (by decide)
        | ok rows2 =>
          rcases hB : runAttempt valid false rows2 retry1 succ1 fail1 with ⟨succ2, fail2, retry2⟩
          obtain ⟨jhs, jhf, jhr⟩ := runAttempt_mem valid false rows2 retry1 succ1 fail1 k
          rw [hB] at jhs jhf jhr
          simp only [hB]
          rw [failAllWith_mem, jhs, jhf, jhr, ihs, ihf, ihr]
          constructor
          · constructor
            · rintro ((⟨h, _⟩ | ⟨⟨h, _⟩, _⟩) | ((⟨h, _⟩ | ⟨⟨h, _⟩, _⟩) | ⟨⟨h, _⟩, _⟩)) <;> exact h
            · intro hmem
              rcases attemptOutcome_cases valid true rows k with h | h | h
              · exact Or.inl (Or.inl ⟨hmem, h⟩)
              · exact Or.inr (Or.inl (Or.inl ⟨hmem, h⟩))
              · rcases attemptOutcome_cases valid false rows2 k with h2 | h2 | h2
                · exact Or.inl (Or.inr ⟨⟨hmem, h⟩, h2⟩)
                · exact Or.inr (Or.inl (Or.inr ⟨⟨hmem, h⟩, h2⟩))
                · exact Or.inr (Or.inr ⟨⟨hmem, h⟩, h2⟩)
          · rintro ⟨(⟨_, h0⟩ | ⟨⟨_, h0⟩, hq0⟩),
              ((⟨_, h1⟩ | ⟨⟨_, h1⟩, hq1⟩) | ⟨⟨_, h1⟩, hq1⟩)⟩
            · rw [h0] at h1; exact absurd h1 (by decide)
            · rw [h0] at h1; exact absurd h1 (by decide)
            · rw [h0] at h1; exact absurd h1 (by decide)
            · rw [h0] at h1; exact absurd h1 (by decide)
            · rw [hq0] at hq1; exact absurd hq1 (by decide)
            · rw [hq0] at hq1; exact absurd hq1 (by decide)

/-- C8: for every list of pending items, every item id ends in exactly one
of the maps returned by `_call_llm_with_retry`: the key sets of `successes`
and `failures` are disjoint and their union is exactly the set of pending
item ids — no silent drops. -/
theorem llm_retry_partitions_pending (llm : LLMCall) (valid : Payload → Bool)
    (pending : List PendingItem) (k : String) :
    ((k ∈ kvKeys (call_llm_with_retry llm valid pending).1 ∨
      k ∈ kvKeys (call_llm_with_retry llm valid pending).2) ↔
      k ∈ pending.map PendingItem.id) ∧
    ¬(k ∈ kvKeys (call_llm_with_retry llm valid pending).1 ∧
      k ∈ kvKeys (call_llm_with_retry llm valid pending).2) :=
  call_llm_mem llm valid pending k

theorem runAttempt_nodup (valid : Payload → Bool) (first : Bool) (rows : List LLMRow) :
    ∀ (queue : List PendingItem) (succ : List (String × Payload))
      (fail : List (String × String)),
      (kvKeys succ).Nodup → (kvKeys fail).Nodup →
      (kvKeys (runAttempt valid first rows queue succ fail).1).Nodup ∧
      (kvKeys (runAttempt valid first rows queue succ fail).2.1).Nodup := by
  intro queue
  induction queue with
  | nil => intro succ fail hs hf; exact ⟨hs, hf⟩
  | cons item rest ih =>
    intro succ fail hs hf
    cases hrow : response_by_id rows item.id with
    | none =>
      have h1 : (runAttempt valid first rows (item :: rest) succ fail)
          = (runAttempt valid first rows rest succ (setKV fail item.id "missing_response")) := by
        simp [runAttempt, hrow]
      rw [h1]
      exact ih succ _ hs (nodup_kvKeys_setKV _ _ _ hf)
    | some row =>
      cases hpay : row.payload with
      | none =>
        have h1 : (runAttempt valid first rows (item :: rest) succ fail)
            = (runAttempt valid first rows rest succ (setKV fail item.id "llm_call_failed")) := by
          simp [runAttempt, hrow, hpay]
        rw [h1]
        exact ih succ _ hs (nodup_kvKeys_setKV _ _ _ hf)
      | some payload =>
        by_cases hv : valid payload
        · have h1 : (runAttempt valid first rows (item :: rest) succ fail)
              = (runAttempt valid first rows rest (setKV succ item.id payload) fail) := by
            simp [runAttempt, hrow, hpay, hv]
          rw [h1]
          exact ih _ fail (nodup_kvKeys_setKV _ _ _ hs) hf
        · cases first with
          | true =>
            have h1 : (runAttempt valid true rows (item :: rest) succ fail).1
                = (runAttempt valid true rows rest succ fail).1 := by
              simp [runAttempt, hrow, hpay, hv]
            have h2 : (runAttempt valid true rows (item :: rest) succ fail).2.1
                = (runAttempt valid true rows rest succ fail).2.1 := by
              simp [runAttempt, hrow, hpay, hv]
            rw [h1, h2]
            exact ih succ fail hs hf
          | false =>
            have h1 : (runAttempt valid false rows (item :: rest) succ fail)
                = (runAttempt valid false rows rest succ (setKV fail item.id "invalid_output")) := by
              simp [runAttempt, hrow, hpay, hv]
            rw [h1]
            exact ih succ _ hs (nodup_kvKeys_setKV _ _ _ hf)

theorem failAllWith_nodup (queue : List PendingItem) :
    ∀ (fail : List (String × String)) (kind : String),
      (kvKeys fail).Nodup → (kvKeys (failAllWith fail queue kind)).Nodup := by
  induction queue with
  | nil => intro fail kind hf; exact hf
  | cons item rest ih =>
    intro fail kind hf
    exact ih (setKV fail item.id kind) kind (nodup_kvKeys_setKV _ _ _ hf)

theorem call_llm_nodup (llm : LLMCall) (valid : Payload → Bool)
    (pending : List PendingItem) :
    (kvKeys (call_llm_with_retry llm valid pending).1).Nodup ∧
    (kvKeys (call_llm_with_retry llm valid pending).2).Nodup := by
  unfold call_llm_with_retry
  by_cases hemp : pending.isEmpty
  · rw [if_pos hemp]
    exact ⟨List.nodup_nil, List.nodup_nil⟩
  · rw [if_neg hemp]
    cases hcall : llm (llm_request_rows pending) with
    | error e =>
      exact ⟨List.nodup_nil,
        failAllWith_nodup _ _ _ (failAllWith_nodup _ _ _ List.nodup_nil)⟩
    | ok rows =>
      rcases hA : runAttempt valid true rows pending [] [] with ⟨succ1, fail1, retry1⟩
      have hN := runAttempt_nodup valid true rows pending [] [] List.nodup_nil List.nodup_nil
      rw [hA] at hN
      simp only [hA]
      by_cases hret : retry1.isEmpty
      · rw [if_pos hret]
        exact hN
      · rw [if_neg hret]
        cases hcall2 : llm (llm_request_rows retry1) with
        | error e2 =>
          exact ⟨hN.1, failAllWith_nodup _ _ _ (failAllWith_nodup _ _ _ hN.2)⟩
        | ok rows2 =>
          rcases hB : runAttempt valid false rows2 retry1 succ1 fail1 with ⟨succ2, fail2, retry2⟩
          have hM := runAttempt_nodup valid false rows2 retry1 succ1 fail1 hN.1 hN.2
          rw [hB] at hM
          simp only [hB]
          exact ⟨hM.1, failAllWith_nodup _ _ _ hM.2⟩

/-! ### Non-raising runs of the as-written model

`to_responseE` always raises (its read list is not covered by the
dataclass fields), so an as-written run that returns is exactly a run that
never reaches `_to_response`; on those runs the as-written and intended
models follow the same control flow and return the same value. -/

theorem to_responseE_eq_error (record : NormalizeRecord) (guard : GuardrailResult)
    (cached : Bool) :
    to_responseE record guard cached = .error PyExc.attributeError := rfl

theorem route_recordE_ok (nd : Str → Option Payload) (st : ChunkState)
    (record : NormalizeRecord) (st' : ChunkState)
    (h : route_recordE nd st record = .ok st') : route_record nd st record = st' := by
  simp only [route_recordE] at h
  simp only [route_record]
  by_cases h1 : hasKV st.seen_in_batch (exact_cache_key record.raw_name) = true
  · rw [if_pos h1] at h ⊢
    exact Except.ok.inj h
  · rw [if_neg h1] at h ⊢
    cases hc : getKV st.cache (exact_cache_key record.raw_name) with
    | some p =>
      rw [hc] at h
      simp [to_responseE_eq_error] at h
    | none =>
      rw [hc] at h
      cases hn : nd record.raw_name with
      | some p =>
        rw [hn] at h
        simp [to_responseE_eq_error] at h
      | none =>
        rw [hn] at h
        simpa using h

theorem route_goE_ok (nd : Str → Option Payload) (chunk : List NormalizeRecord) :
    ∀ (st st' : ChunkState), route_goE nd st chunk = .ok st' →
      chunk.foldl (route_record nd) st = st' := by
  induction chunk with
  | nil =>
    intro st st' h
    simp only [route_goE] at h
    simpa using Except.ok.inj h
  | cons r rest ih =>
    intro st st' h
    simp only [route_goE] at h
    cases hr : route_recordE nd st r with
    | error e =>
      rw [hr] at h
      simp at h
    | ok st1 =>
      rw [hr] at h
      rw [List.foldl_cons, route_recordE_ok nd st r st1 hr]
      exact ih st1 st' h

theorem route_chunkE_ok (nd : Str → Option Payload) (cache0 : List (Str × Payload))
    (chunk : List NormalizeRecord) (st' : ChunkState)
    (h : route_chunkE nd cache0 chunk = .ok st') : route_chunk nd cache0 chunk = st' :=
  route_goE_ok nd chunk (initChunkState cache0) st' h

theorem apply_successE_ok (st : ChunkState) (acc : LLMPhase) (entry : String × Payload)
    (acc' : LLMPhase) (h : apply_successE st acc entry = .ok acc') :
    apply_success st acc entry = acc' := by
  simp only [apply_successE] at h
  simp only [apply_success]
  cases hr : getKV st.lookup_by_id entry.1 with
  | none =>
    rw [hr] at h
    simpa using h
  | some record =>
    rw [hr] at h
    cases hc : getKV st.cache_key_by_id entry.1 with
    | none =>
      rw [hc] at h
      simpa using h
    | some ck =>
      rw [hc] at h
      simp [to_responseE_eq_error] at h

theorem apply_successGoE_ok (st : ChunkState) (l : List (String × Payload)) :
    ∀ (acc acc' : LLMPhase), apply_successGoE st acc l = .ok acc' →
      l.foldl (apply_success st) acc = acc' := by
  induction l with
  | nil =>
    intro acc acc' h
    simp only [apply_successGoE] at h
    simpa using Except.ok.inj h
  | cons e rest ih =>
    intro acc acc' h
    simp only [apply_successGoE] at h
    cases he : apply_successE st acc e with
    | error exc =>
      rw [he] at h
      simp at h
    | ok acc1 =>
      rw [he] at h
      rw [List.foldl_cons, apply_successE_ok st acc e acc1 he]
      exact ih acc1 acc' h

theorem llm_phaseE_ok (llm : LLMCall) (valid : Payload → Bool) (st : ChunkState)
    (ph : LLMPhase) (h : llm_phaseE llm valid st = .ok ph) :
    llm_phase llm valid st = ph := by
  simp only [llm_phaseE] at h
  simp only [llm_phase]
  by_cases hemp : st.pending.isEmpty = true
  · rw [if_pos hemp] at h ⊢
    exact Except.ok.inj h
  · rw [if_neg hemp] at h ⊢
    rcases hcall : call_llm_with_retry llm valid st.pending with ⟨succ, fail⟩
    simp only [hcall] at h ⊢
    cases hgo : apply_successGoE st
        { outputs := [], errors := [], payload_by_cache_key := [], cache := st.cache }
        succ with
    | error e =>
      rw [hgo] at h
      simp at h
    | ok afterS =>
      rw [hgo] at h
      rw [apply_successGoE_ok st succ _ afterS hgo]
      exact Except.ok.inj h

theorem resolve_deferredE_ok (P C : List (Str × Payload)) (entry : NormalizeRecord × Str)
    (r : NormalizeResponseItem × Option String)
    (h : resolve_deferredE P C entry = .ok r) : resolve_deferred P C entry = r := by
  simp only [resolve_deferredE] at h
  simp only [resolve_deferred]
  cases hp : (getKV P entry.2).orElse (fun _ => getKV C entry.2) with
  | some payload =>
    rw [hp] at h
    simp [to_responseE_eq_error] at h
  | none =>
    rw [hp] at h
    simpa using h

theorem resolveGoE_ok (P C : List (Str × Payload)) (l : List (NormalizeRecord × Str)) :
    ∀ rs, resolveGoE P C l = .ok rs → l.map (resolve_deferred P C) = rs := by
  induction l with
  | nil =>
    intro rs h
    simp only [resolveGoE] at h
    simpa using Except.ok.inj h
  | cons e rest ih =>
    intro rs h
    simp only [resolveGoE] at h
    cases he : resolve_deferredE P C e with
    | error exc =>
      rw [he] at h
      simp at h
    | ok r =>
      rw [he] at h
      cases hrest : resolveGoE P C rest with
      | error exc =>
        rw [hrest] at h
        simp at h
      | ok rs2 =>
        rw [hrest] at h
        rw [List.map_cons, resolve_deferredE_ok P C e r he, ih rs2 hrest]
        exact Except.ok.inj h

theorem process_chunkE_ok (nd : Str → Option Payload) (llm : LLMCall)
    (valid : Payload → Bool) (cache0 : List (Str × Payload))
    (chunk : List NormalizeRecord)
    (res : List NormalizeResponseItem × List String × List (Str × Payload))
    (h : process_chunkE nd llm valid cache0 chunk = .ok res) :
    process_chunk nd llm valid cache0 chunk = res := by
  simp only [process_chunkE] at h
  cases hr : route_chunkE nd cache0 chunk with
  | error e =>
    simp [hr] at h
  | ok st =>
    simp only [hr] at h
    cases hp : llm_phaseE llm valid st with
    | error e =>
      simp [hp] at h
    | ok ph =>
      simp only [hp] at h
      cases hres : resolveGoE ph.payload_by_cache_key ph.cache st.deferred_duplicates with
      | error e =>
        simp [hres] at h
      | ok resolved =>
        simp only [hres] at h
        simp only [process_chunk]
        rw [route_chunkE_ok nd cache0 chunk st hr, llm_phaseE_ok llm valid st ph hp,
          resolveGoE_ok ph.payload_by_cache_key ph.cache st.deferred_duplicates resolved hres]
        simpa using h

/-! ### Output/record id accounting for `_process_chunk` (C2, C7) -/

/-- Ids of a list of response items. -/
def outIds (l : List NormalizeResponseItem) : List String :=
  l.map NormalizeResponseItem.id

/-- Ids of a list of pending items. -/
def pendIds (l : List PendingItem) : List String := l.map PendingItem.id

/-- Ids of a list of deferred duplicates. -/
def defIds (l : List (NormalizeRecord × Str)) : List String :=
  l.map (fun e => e.1.id)

/-- Ids of a list of records. -/
def recIds (l : List NormalizeRecord) : List String := l.map NormalizeRecord.id

theorem route_record_ids (nd : Str → Option Payload) (st : ChunkState)
    (record : NormalizeRecord) :
    (↑(outIds (route_record nd st record).outputs) +
     ↑(pendIds (route_record nd st record).pending) +
     ↑(defIds (route_record nd st record).deferred_duplicates) : Multiset String)
      = ↑(outIds st.outputs) + ↑(pendIds st.pending) +
        ↑(defIds st.deferred_duplicates) + {record.id} := by
  simp only [route_record]
  by_cases h1 : hasKV st.seen_in_batch (exact_cache_key record.raw_name) = true
  · rw [if_pos h1]
    simp only [outIds, pendIds, defIds, List.map_append, List.map_cons, List.map_nil,
      ← Multiset.coe_add, Multiset.coe_singleton]
    abel
  · rw [if_neg h1]
    cases h2 : getKV st.cache (exact_cache_key record.raw_name) with
    | some p =>
      simp only [outIds, pendIds, defIds, to_response, List.map_append, List.map_cons,
        List.map_nil, ← Multiset.coe_add, Multiset.coe_singleton]
      abel
    | none =>
      cases h3 : nd record.raw_name with
      | some p =>
        simp only [outIds, pendIds, defIds, to_response, List.map_append, List.map_cons,
          List.map_nil, ← Multiset.coe_add, Multiset.coe_singleton]
        abel
      | none =>
        simp only [outIds, pendIds, defIds, List.map_append, List.map_cons,
          List.map_nil, ← Multiset.coe_add, Multiset.coe_singleton]
        abel

theorem route_fold_ids (nd : Str → Option Payload) (chunk : List NormalizeRecord) :
    ∀ st : ChunkState,
      (↑(outIds (chunk.foldl (route_record nd) st).outputs) +
       ↑(pendIds (chunk.foldl (route_record nd) st).pending) +
       ↑(defIds (chunk.foldl (route_record nd) st).deferred_duplicates) : Multiset String)
        = ↑(outIds st.outputs) + ↑(pendIds st.pending) +
          ↑(defIds st.deferred_duplicates) + ↑(recIds chunk) := by
  induction chunk with
  | nil => intro st; simp [recIds]
  | cons r rest ih =>
    intro st
    rw [List.foldl_cons, ih (route_record nd st r), route_record_ids]
    simp only [recIds, List.map_cons]
    rw [show ((↑(r.id :: List.map NormalizeRecord.id rest) : Multiset String))
        = {r.id} + ↑(List.map NormalizeRecord.id rest) from rfl]
    abel

theorem route_chunk_ids (nd : Str → Option Payload) (cache0 : List (Str × Payload))
    (chunk : List NormalizeRecord) :
    (outIds (route_chunk nd cache0 chunk).outputs ++
     pendIds (route_chunk nd cache0 chunk).pending ++
     defIds (route_chunk nd cache0 chunk).deferred_duplicates).Perm (recIds chunk) := by
  rw [← Multiset.coe_eq_coe]
  have h := route_fold_ids nd chunk (initChunkState cache0)
  simp only [initChunkState, outIds, pendIds, defIds, List.map_nil] at h
  unfold route_chunk outIds pendIds defIds
  simp only [← Multiset.coe_add]
  simpa using h

/-- Coverage invariant of the routing phase: `lookup_by_id` and
`cache_key_by_id` have an entry (with matching id) for every pending id. -/
def covers (st : ChunkState) : Prop :=
  ∀ k, k ∈ pendIds st.pending →
    (∃ r, getKV st.lookup_by_id k = some r ∧ r.id = k) ∧
    (∃ ck, getKV st.cache_key_by_id k = some ck)

theorem route_record_covers (nd : Str → Option Payload) (st : ChunkState)
    (record : NormalizeRecord) (h : covers st) : covers (route_record nd st record) := by
  simp only [route_record]
  by_cases h1 : hasKV st.seen_in_batch (exact_cache_key record.raw_name) = true
  · rw [if_pos h1]; exact h
  · rw [if_neg h1]
    cases h2 : getKV st.cache (exact_cache_key record.raw_name) with
    | some p => exact h
    | none =>
      cases h3 : nd record.raw_name with
      | some p => exact h
      | none =>
        intro k hk
        simp only [pendIds, List.map_append, List.map_cons, List.map_nil,
          List.mem_append, List.mem_singleton] at hk
        by_cases hkr : k = record.id
        · subst hkr
          refine ⟨⟨record, ?_, rfl⟩, ⟨exact_cache_key record.raw_name, ?_⟩⟩
          · exact getKV_setKV_self _ _ _
          · exact getKV_setKV_self _ _ _
        · rcases hk with hk | hk
          · obtain ⟨⟨r, hr, hrid⟩, ⟨ck, hck⟩⟩ := h k hk
            refine ⟨⟨r, ?_, hrid⟩, ⟨ck, ?_⟩⟩
            · rw [getKV_setKV_ne _ _ _ _ hkr]; exact hr
            · rw [getKV_setKV_ne _ _ _ _ hkr]; exact hck
          · exact absurd hk hkr

theorem route_chunk_covers (nd : Str → Option Payload) (cache0 : List (Str × Payload))
    (chunk : List NormalizeRecord) : covers (route_chunk nd cache0 chunk) := by
  unfold route_chunk
  have base : covers (initChunkState cache0) := by
    intro k hk
    simp [initChunkState, pendIds] at hk
  generalize hst : initChunkState cache0 = st
  rw [hst] at base
  clear hst
  induction chunk generalizing st with
  | nil => exact base
  | cons r rest ih =>
    rw [List.foldl_cons]
    exact ih _ (route_record_covers nd st r base)

theorem apply_success_fold_outIds (st : ChunkState) (entries : List (String × Payload)) :
    ∀ acc : LLMPhase,
      (∀ e ∈ entries,
        (∃ r, getKV st.lookup_by_id e.1 = some r ∧ r.id = e.1) ∧
        (∃ ck, getKV st.cache_key_by_id e.1 = some ck)) →
      outIds (entries.foldl (apply_success st) acc).outputs
        = outIds acc.outputs ++ entries.map Prod.fst := by
  induction entries with
  | nil => intro acc _; simp
  | cons e rest ih =>
    intro acc hcov
    obtain ⟨⟨r, hr, hrid⟩, ⟨ck, hck⟩⟩ := hcov e (List.mem_cons_self e rest)
    have hstep : apply_success st acc e =
        { acc with
          outputs := acc.outputs ++
            [to_response r (apply_guardrails r.raw_name e.2) false]
          cache := setKV acc.cache ck e.2
          payload_by_cache_key := setKV acc.payload_by_cache_key ck e.2 } := by
      simp [apply_success, hr, hck]
    rw [List.foldl_cons, hstep, ih _ (fun e2 he2 => hcov e2 (List.mem_cons_of_mem e he2))]
    simp [outIds, to_response, hrid]

theorem apply_failure_fold_outIds (st : ChunkState) (entries : List (String × String)) :
    ∀ acc : LLMPhase,
      (∀ e ∈ entries, ∃ r, getKV st.lookup_by_id e.1 = some r ∧ r.id = e.1) →
      outIds (entries.foldl (apply_failure st) acc).outputs
        = outIds acc.outputs ++ entries.map Prod.fst := by
  induction entries with
  | nil => intro acc _; simp
  | cons e rest ih =>
    intro acc hcov
    obtain ⟨r, hr, hrid⟩ := hcov e (List.mem_cons_self e rest)
    have hstep : apply_failure st acc e =
        { acc with
          outputs := acc.outputs ++
            [{ id := r.id, raw_name := r.raw_name, cached := false,
               error := some e.2 }]
          errors := acc.errors ++ [r.id ++ ":" ++ e.2] } := by
      simp [apply_failure, hr]
    rw [List.foldl_cons, hstep, ih _ (fun e2 he2 => hcov e2 (List.mem_cons_of_mem e he2))]
    simp [outIds, hrid]

theorem resolve_ids (P C : List (Str × Payload)) (deferred : List (NormalizeRecord × Str)) :
    outIds ((deferred.map (resolve_deferred P C)).map Prod.fst) = defIds deferred := by
  induction deferred with
  | nil => rfl
  | cons e rest ih =>
    simp only [List.map_cons, outIds, defIds, List.map_cons] at ih ⊢
    congr 1
    unfold resolve_deferred
    cases (getKV P e.2).orElse (fun _ => getKV C e.2) with
    | some p => simp [to_response]
    | none => simp

theorem llm_phase_outIds (llm : LLMCall) (valid : Payload → Bool) (st : ChunkState)
    (hcov : covers st) :
    (pendIds st.pending).Nodup →
    (outIds (llm_phase llm valid st).outputs).Perm (pendIds st.pending) := by
  intro hnd
  unfold llm_phase
  by_cases hemp : st.pending.isEmpty
  · rw [if_pos hemp]
    have hnil : st.pending = [] := List.isEmpty_iff.mp hemp
    rw [hnil]
    simp [outIds, pendIds]
  · rw [if_neg hemp]
    rcases hC : call_llm_with_retry llm valid st.pending with ⟨succ, fail⟩
    have hmem := fun k => call_llm_mem llm valid st.pending k
    have hndk := call_llm_nodup llm valid st.pending
    rw [hC] at hndk
    simp only [hC] at hmem ⊢
    have hsubS : kvKeys succ ⊆ pendIds st.pending := by
      intro a ha
      exact (hmem a).1.mp (Or.inl ha)
    have hsubF : kvKeys fail ⊆ pendIds st.pending := by
      intro a ha
      exact (hmem a).1.mp (Or.inr ha)
    have hcovS : ∀ e ∈ succ,
        (∃ r, getKV st.lookup_by_id e.1 = some r ∧ r.id = e.1) ∧
        (∃ ck, getKV st.cache_key_by_id e.1 = some ck) := by
      intro e he
      exact hcov e.1 (hsubS (List.mem_map.mpr ⟨e, he, rfl⟩))
    have hcovF : ∀ e ∈ fail,
        ∃ r, getKV st.lookup_by_id e.1 = some r ∧ r.id = e.1 := by
      intro e he
      exact (hcov e.1 (hsubF (List.mem_map.mpr ⟨e, he, rfl⟩))).1
    rw [apply_failure_fold_outIds st fail _ hcovF, apply_success_fold_outIds st succ _ hcovS]
    simp only [outIds, List.map_nil, List.nil_append]
    have hdisj : List.Disjoint (kvKeys succ) (kvKeys fail) := by
      intro a haS haF
      exact (hmem a).2 ⟨haS, haF⟩
    have hnd1 : (kvKeys succ ++ kvKeys fail).Nodup :=
      List.Nodup.append hndk.1 hndk.2 hdisj
    have hsub12 : (kvKeys succ ++ kvKeys fail) ⊆ pendIds st.pending := by
      intro a ha
      rcases List.mem_append.mp ha with ha | ha
      · exact hsubS ha
      · exact hsubF ha
    have hsub21 : pendIds st.pending ⊆ (kvKeys succ ++ kvKeys fail) := by
      intro a ha
      rcases (hmem a).1.mpr ha with h1 | h1
      · exact List.mem_append.mpr (Or.inl h1)
      · exact List.mem_append.mpr (Or.inr h1)
    exact (hnd1.subperm hsub12).antisymm (hnd.subperm hsub21)

/-- Decomposition of `process_chunk`'s output list by phase. -/
theorem process_chunk_outputs_eq (nd : Str → Option Payload) (llm : LLMCall)
    (valid : Payload → Bool) (cache0 : List (Str × Payload))
    (chunk : List NormalizeRecord) :
    (process_chunk nd llm valid cache0 chunk).1
      = (route_chunk nd cache0 chunk).outputs
        ++ (llm_phase llm valid (route_chunk nd cache0 chunk)).outputs
        ++ ((route_chunk nd cache0 chunk).deferred_duplicates.map
             (resolve_deferred
               (llm_phase llm valid (route_chunk nd cache0 chunk)).payload_by_cache_key
               (llm_phase llm valid (route_chunk nd cache0 chunk)).cache)).map Prod.fst := rfl

/-- Permutation accounting over the intended model: with distinct record
ids, the output ids of `process_chunk` are a permutation of the input
ids. -/
theorem process_chunk_outputs_perm_aux (nd : Str → Option Payload)
    (llm : LLMCall) (valid : Payload → Bool) (cache0 : List (Str × Payload))
    (chunk : List NormalizeRecord) (h : (recIds chunk).Nodup) :
    (outIds (process_chunk nd llm valid cache0 chunk).1).Perm (recIds chunk) := by
  have hperm := route_chunk_ids nd cache0 chunk
  have hnodup3 : (outIds (route_chunk nd cache0 chunk).outputs ++
      pendIds (route_chunk nd cache0 chunk).pending ++
      defIds (route_chunk nd cache0 chunk).deferred_duplicates).Nodup :=
    hperm.nodup_iff.mpr h
  have hpendN : (pendIds (route_chunk nd cache0 chunk).pending).Nodup :=
    (List.Nodup.of_append_left hnodup3).of_append_right
  have hphase := llm_phase_outIds llm valid (route_chunk nd cache0 chunk)
    (route_chunk_covers nd cache0 chunk) hpendN
  rw [process_chunk_outputs_eq]
  show (outIds (_ ++ _ ++ _)).Perm _
  simp only [outIds, List.map_append]
  have hresolve := resolve_ids
    (llm_phase llm valid (route_chunk nd cache0 chunk)).payload_by_cache_key
    (llm_phase llm valid (route_chunk nd cache0 chunk)).cache
    (route_chunk nd cache0 chunk).deferred_duplicates
  simp only [outIds] at hresolve
  rw [hresolve]
  refine List.Perm.trans ?_ hperm
  exact ((List.Perm.refl _).append hphase).append (List.Perm.refl _)

/-- C2 (amended): whenever `_process_chunk` as written returns at all —
which, by the C1 fault, is exactly the runs in which no record resolves
successfully, since every success path calls the raising `_to_response` —
and the record ids of the chunk are distinct (the API contract: ids are
unique within a request), it returns exactly one output item per input
record: the output ids are a permutation of the input ids, for every cache
state, near-dupe backend, classifier behaviour and validator.  The
sequence is grouped by phase rather than following the input order (see
the counterexample). -/
theorem process_chunk_outputs_perm_input_ids (nd : Str → Option Payload)
    (llm : LLMCall) (valid : Payload → Bool) (cache0 : List (Str × Payload))
    (chunk : List NormalizeRecord) (out : List NormalizeResponseItem)
    (errs : List String) (cache : List (Str × Payload))
    (h : (recIds chunk).Nodup)
    (hok : process_chunkE nd llm valid cache0 chunk = .ok (out, errs, cache)) :
    (outIds out).Perm (recIds chunk) := by
  have heq := process_chunkE_ok nd llm valid cache0 chunk (out, errs, cache) hok
  have hperm := process_chunk_outputs_perm_aux nd llm valid cache0 chunk h
  rw [heq] at hperm
  exact hperm

/-- First C2 record: misses every cache tier; its payload fails validation
on both attempts. -/
def c2RecordA : NormalizeRecord :=
  { id := "a", raw_name := chars "Alpha Works", source := "csv" }

/-- Second C2 record: misses every cache tier; the classifier never
answers for it. -/
def c2RecordB : NormalizeRecord :=
  { id := "b", raw_name := chars "Beta Labs", source := "csv" }

/-- Payload the classifier returns for record "a" (rejected by the run's
validator). -/
def c2PayloadA : Payload :=
  { canonical := some (chars "Alpha Works"), is_new := some false,
    confidence := some (Rat.divInt 9 10), reason := none }

/-- Classifier answering every request with a row for id "a" only: record
"b" fails with `missing_response` on attempt 1, while record "a" is
re-queued (its payload fails validation) and only fails — with
`invalid_output` — on attempt 2, so its failure entry is inserted after
record "b"'s. -/
def c2LlmA : LLMCall := fun _ => .ok [{ id := some "a", payload := some c2PayloadA }]

/-- Output ids of an as-written chunk run: `some` of the ids when the run
returns, `none` when it raises. -/
def okOutIds
    (r : Except PyExc (List NormalizeResponseItem × List String × List (Str × Payload))) :
    Option (List String) :=
  match r with
  | .ok res => some (outIds res.1)
  | .error _ => none

/-- C2 (counterexample): within a chunk the output sequence does not match
the input record order, already on a run where the program as written
returns (no record resolves successfully, so the C1 `AttributeError` never
fires): with both records missing every cache tier, record "a" failing
validation on both attempts and record "b" absent from the classifier
response, the failure dict holds "b" before "a" ("a" is only inserted on
the retry attempt) and the chunk returns the outputs in order [b, a]. -/
theorem process_chunk_output_not_input_order :
    okOutIds (process_chunkE (fun _ => none) c2LlmA (fun _ => false) []
        [c2RecordA, c2RecordB]) = some ["b", "a"] ∧
    okOutIds (process_chunkE (fun _ => none) c2LlmA (fun _ => false) []
        [c2RecordA, c2RecordB]) ≠ some (recIds [c2RecordA, c2RecordB]) := by
  constructor <;> decide

/-- The outputs of the C2 counterexample run, in the order the program
produces them. -/
def c2OutItems : List NormalizeResponseItem :=
  [{ id := "b", raw_name := chars "Beta Labs", cached := false,
     error := some "missing_response" },
   { id := "a", raw_name := chars "Alpha Works", cached := false,
     error := some "invalid_output" }]

/-- C2 (witness): the amended permutation statement applied at the
counterexample's own (returning) run. -/
theorem process_chunk_outputs_perm_witness :
    (recIds [c2RecordA, c2RecordB]).Nodup ∧
    (outIds c2OutItems).Perm (recIds [c2RecordA, c2RecordB]) :=
  ⟨by decide,
   process_chunk_outputs_perm_input_ids (fun _ => none) c2LlmA (fun _ => false)
     [] [c2RecordA, c2RecordB] c2OutItems
     ["b:missing_response", "a:invalid_output"] [] (by decide) (by rfl)⟩

/-! ### In-batch deduplication (C7) -/

/-- Cache keys of a pending list. -/
def pendKeys (l : List PendingItem) : List Str := l.map PendingItem.cache_key

theorem route_record_pendKeys (nd : Str → Option Payload) (st : ChunkState)
    (record : NormalizeRecord)
    (h1 : (pendKeys st.pending).Nodup)
    (h2 : ∀ k ∈ pendKeys st.pending, k ∈ kvKeys st.seen_in_batch) :
    (pendKeys (route_record nd st record).pending).Nodup ∧
    (∀ k ∈ pendKeys (route_record nd st record).pending,
      k ∈ kvKeys (route_record nd st record).seen_in_batch) := by
  simp only [route_record]
  by_cases hseen : hasKV st.seen_in_batch (exact_cache_key record.raw_name) = true
  · rw [if_pos hseen]
    exact ⟨h1, h2⟩
  · rw [if_neg hseen]
    have hnot : exact_cache_key record.raw_name ∉ kvKeys st.seen_in_batch := by
      intro hc
      exact hseen (by simpa [hasKV] using hc)
    cases hc : getKV st.cache (exact_cache_key record.raw_name) with
    | some p =>
      refine ⟨h1, ?_⟩
      intro k hk
      exact (mem_kvKeys_setKV _ _ _ _).mpr (Or.inr (h2 k hk))
    | none =>
      cases hn : nd record.raw_name with
      | some p =>
        refine ⟨h1, ?_⟩
        intro k hk
        exact (mem_kvKeys_setKV _ _ _ _).mpr (Or.inr (h2 k hk))
      | none =>
        constructor
        · simp only [pendKeys, List.map_append, List.map_cons, List.map_nil]
          apply List.Nodup.append h1 (List.nodup_singleton _)
          intro k hk hk2
          rw [List.mem_singleton] at hk2
          subst hk2
          exact hnot (h2 _ hk)
        · intro k hk
          simp only [pendKeys, List.map_append, List.map_cons, List.map_nil,
            List.mem_append, List.mem_singleton] at hk
          rcases hk with hk | hk
          · exact (mem_kvKeys_setKV _ _ _ _).mpr (Or.inr (h2 k hk))
          · subst hk
            exact (mem_kvKeys_setKV _ _ _ _).mpr (Or.inl rfl)

theorem route_chunk_pendKeys_nodup (nd : Str → Option Payload)
    (cache0 : List (Str × Payload)) (chunk : List NormalizeRecord) :
    (pendKeys (route_chunk nd cache0 chunk).pending).Nodup := by
  unfold route_chunk
  have base : (pendKeys (initChunkState cache0).pending).Nodup ∧
      (∀ k ∈ pendKeys (initChunkState cache0).pending,
        k ∈ kvKeys (initChunkState cache0).seen_in_batch) := by
    constructor
    · exact List.nodup_nil
    · intro k hk
      simp [initChunkState, pendKeys] at hk
  generalize hst : initChunkState cache0 = st
  rw [hst] at base
  clear hst
  induction chunk generalizing st with
  | nil => exact base.1
  | cons r rest ih =>
    rw [List.foldl_cons]
    exact ih _ (route_record_pendKeys nd st r base.1 base.2)

theorem nodup_filter_key_le_one (l : List PendingItem) (key : Str)
    (h : (pendKeys l).Nodup) :
    (l.filter (fun item => decide (item.cache_key = key))).length ≤ 1 := by
  induction l with
  | nil => simp
  | cons i rest ih =>
    simp only [pendKeys, List.map_cons, List.nodup_cons] at h
    by_cases hk : i.cache_key = key
    · have hrest : rest.filter (fun item => decide (item.cache_key = key)) = [] := by
        rw [List.filter_eq_nil_iff]
        intro a ha
        simp only [decide_eq_true_eq]
        intro hak
        exact h.1 (by rw [hk, ← hak]; exact List.mem_map.mpr ⟨a, ha, rfl⟩)
      simp [List.filter_cons, hk, hrest]
    · simp only [List.filter_cons, decide_eq_true_eq, hk, if_false]
      exact ih h.2

theorem resolve_deferred_some (P C : List (Str × Payload)) (r : NormalizeRecord)
    (k : Str) (p : Payload)
    (h : (getKV P k).orElse (fun _ => getKV C k) = some p) :
    resolve_deferred P C (r, k)
      = (to_response r (apply_guardrails r.raw_name p) true, none) := by
  unfold resolve_deferred
  dsimp only
  rw [h]

theorem resolve_deferred_none (P C : List (Str × Payload)) (r : NormalizeRecord)
    (k : Str)
    (h : (getKV P k).orElse (fun _ => getKV C k) = none) :
    resolve_deferred P C (r, k)
      = ({ id := r.id, raw_name := r.raw_name, cached := false,
           error := some "duplicate_of_failed_item" },
         some (r.id ++ ":duplicate_of_failed_item")) := by
  unfold resolve_deferred
  dsimp only
  rw [h]

/-- Leader record of the C7 sharing batch. -/
def c7r1 : NormalizeRecord :=
  { id := "c", raw_name := chars "Acme Inc", source := "csv" }

/-- Duplicate record of the C7 sharing batch: same normalized key as the
leader ("acme inc") despite different spacing, case and punctuation. -/
def c7r2 : NormalizeRecord :=
  { id := "d", raw_name := chars "  ACME   INC.", source := "csv" }

/-- The shared normalized key of the C7 sharing batch. -/
def c7key : Str := exact_cache_key (chars "Acme Inc")

/-- The single classifier work item the C7 sharing batch queues (for the
leader). -/
def c7pend : PendingItem :=
  { id := "c", raw_name := chars "Acme Inc", source := "csv", cache_key := c7key }

/-- Routing state of the C7 sharing batch (empty cache, no near-dupe
hits): one pending classifier item, the duplicate deferred under the
shared key. -/
def stC7 : ChunkState :=
  { outputs := [], pending := [c7pend],
    lookup_by_id := [("c", c7r1)], cache_key_by_id := [("c", c7key)],
    seen_in_batch := [(c7key, "c")],
    deferred_duplicates := [(c7r2, c7key)], cache := [] }

/-- An association list over `String` whose keys all equal `c`, contain
`c`, and are nodup is the singleton at `c`. -/
theorem kv_singleton {α : Type} (f : List (String × α)) (c : String)
    (hne : c ∈ kvKeys f) (hsub : ∀ k ∈ kvKeys f, k = c)
    (hnd : (kvKeys f).Nodup) : ∃ v, f = [(c, v)] := by
  cases f with
  | nil => simp [kvKeys] at hne
  | cons p rest =>
    have hp : p.1 = c := hsub p.1 (by simp [kvKeys])
    cases rest with
    | nil =>
      refine ⟨p.2, ?_⟩
      simp [← hp]
    | cons q rest2 =>
      have hq : q.1 = c := hsub q.1 (by simp [kvKeys])
      rw [kvKeys, List.map_cons, List.map_cons, List.nodup_cons] at hnd
      exact absurd (by simp [hp, hq] : p.1 ∈ q.1 :: List.map Prod.fst rest2) hnd.1

/-- The success loop as written raises on its first entry whenever the
routing dicts cover that entry's id (which they do for every id returned
by the classifier phase). -/
theorem apply_successGoE_head_error (st : ChunkState) (acc : LLMPhase)
    (e : String × Payload) (rest : List (String × Payload))
    (record : NormalizeRecord) (ck : Str)
    (hrec : getKV st.lookup_by_id e.1 = some record)
    (hck : getKV st.cache_key_by_id e.1 = some ck) :
    apply_successGoE st acc (e :: rest) = .error PyExc.attributeError := by
  simp [apply_successGoE, apply_successE, hrec, hck, to_responseE_eq_error]

/-- C7 (amended): on the program as written, for the batch
[c7r1 = "Acme Inc", c7r2 = "  ACME   INC."] whose raw names share the
normalized key "acme inc" (empty cache, no near-dupe hits), routing queues
exactly ONE classifier work item — for the leader — and defers the
duplicate under the shared key; then, for every classifier behaviour and
validator: if the chunk returns at all, the leader failed and the
duplicate's output is exactly the propagated `duplicate_of_failed_item`
error behind the leader's own error item; and if the leader succeeded, the
run raises the C1 `AttributeError` at the leader's `_to_response`, before
the deferred duplicate is resolved.  (The spec's example pair
"Acme Inc" / "ACME, INC." does NOT share a key — see the counterexample —
so it queues two classifier items instead.) -/
theorem batch_dedup_single_classifier_item (llm : LLMCall) (valid : Payload → Bool) :
    route_chunkE (fun _ => none) [] [c7r1, c7r2] = Except.ok stC7 ∧
    pendIds stC7.pending = ["c"] ∧
    stC7.deferred_duplicates.map (fun e => (e.1.id, e.2)) = [("d", c7key)] ∧
    (∀ out errs cache,
        process_chunkE (fun _ => none) llm valid [] [c7r1, c7r2]
          = Except.ok (out, errs, cache) →
        ∃ e, out.map (fun i => (i.id, i.error))
          = [("c", some e), ("d", some "duplicate_of_failed_item")]) ∧
    ((call_llm_with_retry llm valid stC7.pending).1 ≠ [] →
      process_chunkE (fun _ => none) llm valid [] [c7r1, c7r2]
        = Except.error PyExc.attributeError) := by
  have hroute : route_chunkE (fun _ => none) [] [c7r1, c7r2] = Except.ok stC7 := rfl
  rcases hsf : call_llm_with_retry llm valid stC7.pending with ⟨s, f⟩
  have hmem : ∀ k, ((k ∈ kvKeys s ∨ k ∈ kvKeys f) ↔
      k ∈ stC7.pending.map PendingItem.id) ∧
      ¬(k ∈ kvKeys s ∧ k ∈ kvKeys f) := by
    intro k
    have hk := call_llm_mem llm valid stC7.pending k
    rwa [hsf] at hk
  have hndf : (kvKeys f).Nodup := by
    have hk := call_llm_nodup llm valid stC7.pending
    rw [hsf] at hk
    exact hk.2
  have hids : stC7.pending.map PendingItem.id = ["c"] := by decide
  have hS : ∀ k ∈ kvKeys s, k = "c" := by
    intro k hk
    have := (hmem k).1.mp (Or.inl hk)
    rw [hids] at this
    simpa using this
  have hF : ∀ k ∈ kvKeys f, k = "c" := by
    intro k hk
    have := (hmem k).1.mp (Or.inr hk)
    rw [hids] at this
    simpa using this
  have hErrCase : ∀ (e : String × Payload) (rest : List (String × Payload)),
      s = e :: rest →
      process_chunkE (fun _ => none) llm valid [] [c7r1, c7r2]
        = Except.error PyExc.attributeError := by
    intro e rest hsE
    have he1 : e.1 = "c" := hS e.1 (by rw [hsE]; simp [kvKeys])
    have hrec : getKV stC7.lookup_by_id e.1 = some c7r1 := by rw [he1]; rfl
    have hck : getKV stC7.cache_key_by_id e.1 = some c7key := by rw [he1]; rfl
    have hphase : llm_phaseE llm valid stC7 = Except.error PyExc.attributeError := by
      simp only [llm_phaseE]
      rw [if_neg (by decide : ¬(stC7.pending.isEmpty = true))]
      rw [hsf, hsE]
      simp [apply_successGoE_head_error stC7
        { outputs := [], errors := [], payload_by_cache_key := [], cache := stC7.cache }
        e rest c7r1 c7key hrec hck]
    simp only [process_chunkE]
    rw [hroute]
    simp [hphase]
  refine ⟨hroute, by decide, by decide, ?_, ?_⟩
  · intro out errs cache h
    cases hsE : s with
    | cons e rest =>
      rw [hErrCase e rest hsE] at h
      simp at h
    | nil =>
      have hcF : "c" ∈ kvKeys f := by
        have := (hmem "c").1.mpr (by rw [hids]; simp)
        rcases this with hc | hc
        · rw [hsE] at hc
          simp [kvKeys] at hc
        · exact hc
      obtain ⟨v, hfv⟩ := kv_singleton f "c" hcF hF hndf
      have hphase : llm_phaseE llm valid stC7
          = Except.ok { outputs := [{ id := "c", raw_name := chars "Acme Inc",
                                      cached := false, error := some v }],
                        errors := ["c" ++ ":" ++ v], payload_by_cache_key := [],
                        cache := [] } := by
        simp only [llm_phaseE]
        rw [if_neg (by decide : ¬(stC7.pending.isEmpty = true))]
        rw [hsf, hsE, hfv]
        rfl
      have hres : resolveGoE ([] : List (Str × Payload)) ([] : List (Str × Payload))
          stC7.deferred_duplicates
          = Except.ok [({ id := "d", raw_name := chars "  ACME   INC.", cached := false,
                          error := some "duplicate_of_failed_item" },
                        some ("d" ++ ":duplicate_of_failed_item"))] := rfl
      simp only [process_chunkE] at h
      simp only [hroute] at h
      simp only [hphase] at h
      simp only [hres] at h
      have h2 := Except.ok.inj h
      refine ⟨v, ?_⟩
      rw [← show _ = out from congrArg Prod.fst h2]
      rfl
  · intro hne
    cases hsE : s with
    | nil =>
      rw [hsE] at hne
      exact absurd rfl hne
    | cons e rest => exact hErrCase e rest hsE

/-- Payload of the C7 witness run (rejected by that run's validator). -/
def c7Payload : Payload :=
  { canonical := some (chars "Acme Inc"), is_new := some false,
    confidence := some (Rat.divInt 9 10), reason := none }

/-- Classifier of the C7 witness run: answers every request with a row for
the leader whose payload the run's validator rejects, so the leader fails
with `invalid_output` after the retry. -/
def c7Llm : LLMCall := fun _ => .ok [{ id := some "c", payload := some c7Payload }]

/-- Outputs of the C7 witness run, in the order the program produces
them. -/
def c7OutItems : List NormalizeResponseItem :=
  [{ id := "c", raw_name := chars "Acme Inc", cached := false,
     error := some "invalid_output" },
   { id := "d", raw_name := chars "  ACME   INC.", cached := false,
     error := some "duplicate_of_failed_item" }]

/-- C7 (witness): the amended theorem's returning branch applied at a
concrete run whose classifier answer fails validation: the chunk returns
the leader's `invalid_output` error followed by the duplicate's propagated
`duplicate_of_failed_item` error. -/
theorem batch_dedup_witness :
    ∃ e, c7OutItems.map (fun i => (i.id, i.error))
      = [("c", some e), ("d", some "duplicate_of_failed_item")] :=
  (batch_dedup_single_classifier_item c7Llm (fun _ => false)).2.2.2.1
    c7OutItems ["c:invalid_output", "d:duplicate_of_failed_item"] [] (by rfl)

/-- C7 (counterexample): the claim's example pair does not share a
normalized key — `min_clean` strips only outer punctuation, so
"ACME, INC." keeps its comma ("acme, inc" vs "acme inc") — and a batch of
the two records therefore queues BOTH for the classifier (two pending
items with ids c and d), not one. -/
theorem acme_inc_variants_have_distinct_keys :
    exact_cache_key (chars "ACME, INC.") ≠ exact_cache_key (chars "Acme Inc") ∧
    pendIds (route_chunk (fun _ => none) []
      [{ id := "c", raw_name := chars "Acme Inc", source := "csv" },
       { id := "d", raw_name := chars "ACME, INC.", source := "csv" }]).pending
      = ["c", "d"] := by
  constructor <;> decide

/-! ### Job lifecycle and counters (C3) -/

/-- Ten records with pairwise distinct raw names and ids. -/
def c3Records : List NormalizeRecord :=
  ["r1", "r2", "r3", "r4", "r5", "r6", "r7", "r8", "r9", "r10"].map
    (fun i => { id := i, raw_name := chars ("Name " ++ i), source := "csv" })

/-- Classifier returning valid payloads for the first eight records and no
row for r9 and r10, so exactly those two records error
(`missing_response`). -/
def c3Llm : LLMCall := fun reqs => .ok (reqs.filterMap (fun r =>
  if r.id = "r9" || r.id = "r10" then none
  else some { id := some r.id,
              payload := some { canonical := some r.raw_name, is_new := some false,
                                confidence := some (Rat.divInt 9 10), reason := none } }))

/-- Initial job row as created at enqueue time. -/
def c3Job : JobRun := { status := JobStatus.queued, success_count := 0, error_count := 0 }

/-- Whether the record-processing of a job run raised (true exactly when
`process_job`'s `except` branch fired and re-raised). -/
def jobRaised (r : Except PyExc (List NormalizeResponseItem × List String)) : Bool :=
  match r with
  | .error _ => true
  | .ok _ => false

/-- C3 (counterexample): on the program as written, a job of 10 records of
which 2 would error does NOT end in status `partial` with
`success_count = 8` and `error_count = 2`: the first record that resolves
successfully raises the C1 `AttributeError` inside `_to_response`, so
`process_job`'s `except` branch marks the job `failed` and re-raises; and
the counters keep their initial value 0 on every path in any case, since
the only call site of `increment_job_progress` is inside
`upsert_alias_result`, every `upsert_alias_result` call in
`_process_chunk` is commented out ("Disabled for performance"), and no
path passes an `error_delta`. -/
theorem process_job_counters_not_incremented :
    (process_jobE (fun _ => none) c3Llm (fun _ => true) 500 [] c3Job c3Records).1.status
      = JobStatus.failed ∧
    jobRaised (process_jobE (fun _ => none) c3Llm (fun _ => true) 500 [] c3Job c3Records).2
      = true ∧
    (process_jobE (fun _ => none) c3Llm (fun _ => true) 500 [] c3Job c3Records).1.success_count
      = 0 ∧
    (process_jobE (fun _ => none) c3Llm (fun _ => true) 500 [] c3Job c3Records).1.error_count
      = 0 ∧
    ¬((process_jobE (fun _ => none) c3Llm (fun _ => true) 500 [] c3Job c3Records).1.status
        = JobStatus.partly ∧
      (process_jobE (fun _ => none) c3Llm (fun _ => true) 500 [] c3Job c3Records).1.success_count
        = 8 ∧
      (process_jobE (fun _ => none) c3Llm (fun _ => true) 500 [] c3Job c3Records).1.error_count
        = 2) := by
  refine ⟨by decide, by decide, by decide, by decide, by decide⟩

/-- C3 (amended): `process_job` as written never mutates the counters —
they end equal to their initial values for every input — and the terminal
status is `failed` when the record-processing raises (which, by the C1
fault, happens whenever any record resolves successfully), `done` when it
returns with an empty error list, and `partial` otherwise. -/
theorem process_job_counters_unchanged (nd : Str → Option Payload) (llm : LLMCall)
    (valid : Payload → Bool) (batch_size : Nat) (cache0 : List (Str × Payload))
    (job : JobRun) (records : List NormalizeRecord) :
    (process_jobE nd llm valid batch_size cache0 job records).1.success_count
      = job.success_count ∧
    (process_jobE nd llm valid batch_size cache0 job records).1.error_count
      = job.error_count ∧
    (process_jobE nd llm valid batch_size cache0 job records).1.status
      = match (process_jobE nd llm valid batch_size cache0 job records).2 with
        | .error _ => JobStatus.failed
        | .ok (_, errors) =>
          if errors.isEmpty then JobStatus.done else JobStatus.partly := by
  unfold process_jobE
  cases h : process_recordsE nd llm valid batch_size cache0 records with
  | error e => simp
  | ok res =>
    rcases res with ⟨results, errors, cache⟩
    simp
